import Mathlib

/-! mmdbmerge: reserved-space filter, address accounting and merge loop.

A shallow embedding of `mmdbmerge.go`.  Byte slices (`net.IP`, `net.IPMask`)
are lists of naturals, a nil slice is the empty list, `uint64` values are
naturals reduced modulo `2^64`.  The `int` counters of the program count loop
iterations over the networks of a database file; they stay far below `2^63`
and are naturals.  Log output has no effect on what the functions return and
is left out.  The parts of Go's `net`, `net/netip`, `strings` and
`path/filepath` packages that the program calls are embedded next to the
program's own functions, following the library sources.  The source
databases and the merge target are collaborators outside the program: a
source is the sequence of networks its iteration yields, the target is an
arbitrary state with an arbitrary `Insert`.
-/

namespace Mmdbmerge

/-! ## Go library: `net/netip` -/

/-- A `netip.Addr` without zone: the family tag and the address bits. -/
structure Addr where
  is4 : Bool
  val : Nat
  deriving DecidableEq, Repr

/-- Big-endian bytes of `v`, `n` of them (the low `8 * n` bits). -/
def beBytes : Nat → Nat → List Nat
  | 0, _ => []
  | n + 1, v => (v / 256 ^ n) % 256 :: beBytes n v

/-- `Addr.BitLen`: 32 for an IPv4 address, 128 for an IPv6 address. -/
def Addr.BitLen (a : Addr) : Nat := if a.is4 then 32 else 128

/-- `Addr.AsSlice`: 4 bytes for an IPv4 address, 16 for an IPv6 address. -/
def Addr.AsSlice (a : Addr) : List Nat :=
  if a.is4 then beBytes 4 a.val else beBytes 16 a.val

/-- The prefix `::ffff:0:0/96` of IPv4-mapped addresses (`v4InV6Prefix`). -/
def v4InV6Prefix : List Nat := [0, 0, 0, 0, 0, 0, 0, 0, 0, 0, 0xff, 0xff]

/-- `Addr.As16`: the 16-byte form, IPv4 addresses as IPv4-mapped. -/
def Addr.As16 (a : Addr) : List Nat :=
  if a.is4 then v4InV6Prefix ++ beBytes 4 a.val else beBytes 16 a.val

/-- A valid `netip.Prefix`: an address and a length within its family. -/
structure Prefix where
  ip : Addr
  len : Nat
  valid : len ≤ ip.BitLen
  deriving DecidableEq

/-- `Prefix.Addr`. -/
def Prefix.Addr (p : Prefix) : Addr := p.ip

/-- `Prefix.Bits`. -/
def Prefix.Bits (p : Prefix) : Nat := p.len

/-- The IPv4 address `a.b.c.d`. -/
def ip4 (a b c d : Nat) : Addr := ⟨true, a * 2 ^ 24 + b * 2 ^ 16 + c * 2 ^ 8 + d⟩

/-- The IPv6 address with the given eight 16-bit groups. -/
def ip6 (g0 g1 g2 g3 g4 g5 g6 g7 : Nat) : Addr :=
  ⟨false, g0 * 2 ^ 112 + g1 * 2 ^ 96 + g2 * 2 ^ 80 + g3 * 2 ^ 64
    + g4 * 2 ^ 48 + g5 * 2 ^ 32 + g6 * 2 ^ 16 + g7⟩

/-! ## Go library: `net` -/

/-- A `net.IPNet`: network number and mask, both byte slices. -/
structure IPNet where
  IP : List Nat
  Mask : List Nat
  deriving DecidableEq, Repr

/-- The loop of `net.CIDRMask`: `l` mask bytes with `n` leading one bits. -/
def cidrMaskLoop : Nat → Nat → List Nat
  | _, 0 => []
  | n, l + 1 =>
    if n ≥ 8 then 0xff :: cidrMaskLoop (n - 8) l
    else (0xff ^^^ (0xff >>> n)) :: cidrMaskLoop 0 l

/-- `net.CIDRMask(ones, bits)`; nil unless `bits` is 32 or 128 and
`ones ≤ bits`. -/
def CIDRMask (ones bits : Nat) : List Nat :=
  if bits ≠ 8 * 4 ∧ bits ≠ 8 * 16 then []
  else if ones > bits then []
  else cidrMaskLoop ones (bits / 8)

/-- The helper `allFF` of package `net`. -/
def allFF (b : List Nat) : Bool := b.all (fun c => c == 0xff)

/-- The helper `isZeros` of package `net`. -/
def isZeros (p : List Nat) : Bool := p.all (fun c => c == 0)

/-- `IP.To4`: the 4-byte form of an IPv4 address, `none` for nil. -/
def IP.To4 (ip : List Nat) : Option (List Nat) :=
  if ip.length = 4 then some ip
  else if ip.length = 16 ∧ isZeros (ip.take 10) ∧ ip.getD 10 0 = 0xff
      ∧ ip.getD 11 0 = 0xff then some (ip.drop 12)
  else none

/-- `IP.Mask`: the address with the mask applied byte by byte; nil when the
lengths do not fit. -/
def IP.Mask (ip mask : List Nat) : List Nat :=
  let mask := if mask.length = 16 ∧ ip.length = 4 ∧ allFF (mask.take 12)
    then mask.drop 12 else mask
  let ip := if mask.length = 4 ∧ ip.length = 16 ∧ ip.take 12 = v4InV6Prefix
    then ip.drop 12 else ip
  if ip.length ≠ mask.length then []
  else List.zipWith (fun a b => a &&& b) ip mask

/-- `net.ParseCIDR` applied to the text of a valid prefix: the address is
read back unchanged, the mask has `len` leading ones over the family's
width, and the network number is the masked address. -/
def ParseCIDR (p : Prefix) : IPNet :=
  let m := CIDRMask p.Bits p.Addr.BitLen
  ⟨IP.Mask p.Addr.As16 m, m⟩

/-- The inner loop of `simpleMaskLength`: counts the leading one bits of the
byte `v`, shifting it left; returns the count and what is left of `v`.  A
byte is zero after eight shifts, so eight rounds of fuel suffice. -/
def onesLoop : Nat → Nat → Nat × Nat
  | 0, v => (0, v)
  | f + 1, v =>
    if v &&& 0x80 ≠ 0 then
      let r := onesLoop f ((v <<< 1) % 256)
      (r.1 + 1, r.2)
    else (0, v)

/-- `simpleMaskLength`: the number of leading ones of a mask of the form
ones-then-zeros, `none` (Go: `-1`) for any other mask. -/
def simpleMaskLength : List Nat → Option Nat
  | [] => some 0
  | v :: rest =>
    if v = 0xff then (simpleMaskLength rest).map (· + 8)
    else
      let r := onesLoop 8 v
      if r.2 ≠ 0 then none
      else if rest.all (fun c => c == 0) then some r.1 else none

/-- `IPMask.Size`: leading ones and total bits, `(0, 0)` for a mask not in
canonical form. -/
def IPMask.Size (m : List Nat) : Nat × Nat :=
  match simpleMaskLength m with
  | some ones => (ones, m.length * 8)
  | none => (0, 0)

/-- The helper `networkNumberAndMask` of package `net`. -/
def networkNumberAndMask (n : IPNet) : List Nat × List Nat :=
  let ip? : Option (List Nat) :=
    match IP.To4 n.IP with
    | some x => some x
    | none => if n.IP.length ≠ 16 then none else some n.IP
  match ip? with
  | none => ([], [])
  | some ip =>
    if n.Mask.length = 4 then
      if ip.length ≠ 4 then ([], []) else (ip, n.Mask)
    else if n.Mask.length = 16 then
      if ip.length = 4 then (ip, n.Mask.drop 12) else (ip, n.Mask)
    else ([], [])

/-- The comparison loop of `IPNet.Contains` over network number, mask and
address. -/
def containsLoop : List Nat → List Nat → List Nat → Bool
  | n :: nn, m :: ms, x :: ip =>
    if n &&& m ≠ x &&& m then false else containsLoop nn ms ip
  | _, _, _ => true

/-- `IPNet.Contains`. -/
def IPNet.Contains (n : IPNet) (ip : List Nat) : Bool :=
  let nm := networkNumberAndMask n
  let ip := match IP.To4 ip with
    | some x => x
    | none => ip
  if ip.length ≠ nm.1.length then false
  else containsLoop nm.1 nm.2 ip

/-! ## The program: reserved-space filter -/

/-- The function `mustParseCIDR`, at the parsed form of its literal. -/
def mustParseCIDR (a : Addr) (len : Nat) (h : len ≤ a.BitLen) : IPNet :=
  ParseCIDR ⟨a, len, h⟩

/-- The table `reservedNetworks`. -/
def reservedNetworks : List IPNet := [
  mustParseCIDR (ip4 10 0 0 0) 8 (by decide),                -- 10.0.0.0/8
  mustParseCIDR (ip4 172 16 0 0) 12 (by decide),             -- 172.16.0.0/12
  mustParseCIDR (ip4 192 168 0 0) 16 (by decide),            -- 192.168.0.0/16
  mustParseCIDR (ip6 0xfc00 0 0 0 0 0 0 0) 7 (by decide),    -- fc00::/7
  mustParseCIDR (ip6 0xfe80 0 0 0 0 0 0 0) 10 (by decide),   -- fe80::/10
  mustParseCIDR (ip4 127 0 0 0) 8 (by decide),               -- 127.0.0.0/8
  mustParseCIDR (ip6 0 0 0 0 0 0 0 1) 128 (by decide),       -- ::1/128
  mustParseCIDR (ip4 169 254 0 0) 16 (by decide),            -- 169.254.0.0/16
  mustParseCIDR (ip4 0 0 0 0) 8 (by decide),                 -- 0.0.0.0/8
  mustParseCIDR (ip6 0 0 0 0 0 0 0 0) 128 (by decide),       -- ::/128
  mustParseCIDR (ip4 100 64 0 0) 10 (by decide),             -- 100.64.0.0/10
  mustParseCIDR (ip4 192 0 0 0) 24 (by decide),              -- 192.0.0.0/24
  mustParseCIDR (ip4 192 0 2 0) 24 (by decide),              -- 192.0.2.0/24
  mustParseCIDR (ip4 198 51 100 0) 24 (by decide),           -- 198.51.100.0/24
  mustParseCIDR (ip4 203 0 113 0) 24 (by decide),            -- 203.0.113.0/24
  mustParseCIDR (ip4 224 0 0 0) 4 (by decide),               -- 224.0.0.0/4
  mustParseCIDR (ip6 0xff00 0 0 0 0 0 0 0) 8 (by decide)     -- ff00::/8
]

/-- The function `isReservedNetwork`: a linear scan of the table. -/
def isReservedNetwork (ip : List Nat) : Bool :=
  reservedNetworks.any (fun reserved => reserved.Contains ip)

/-! ## The program: address accounting -/

/-- The function `countIPs`; the result is a `uint64`. -/
def countIPs (ipnet : IPNet) : Nat :=
  let (ones, bits) := IPMask.Size ipnet.Mask
  if bits - ones ≥ 64 then 0
  else (1 <<< (bits - ones)) % 2 ^ 64

/-! ## Go library: `strings` and `path/filepath` -/

/-- `strings.HasPrefix` on character lists. -/
def hasPrefixChars : List Char → List Char → Bool
  | _, [] => true
  | [], _ :: _ => false
  | c :: s, d :: p => c == d && hasPrefixChars s p

/-- `strings.Contains` on character lists: `substr` occurs in `s`. -/
def containsChars : List Char → List Char → Bool
  | [], substr => substr.isEmpty
  | c :: s, substr => hasPrefixChars (c :: s) substr || containsChars s substr

/-- `strings.Contains`. -/
def Contains (s substr : String) : Bool := containsChars s.data substr.data

/-- `strings.HasSuffix`. -/
def HasSuffix (s suffix : String) : Bool :=
  hasPrefixChars s.data.reverse suffix.data.reverse

/-- `strings.TrimSuffix`: `s` without the trailing `suffix`, if it has it. -/
def TrimSuffix (s suffix : String) : String :=
  if HasSuffix s suffix then ⟨s.data.take (s.data.length - suffix.data.length)⟩
  else s

/-- The first loop of `filepath.Base`: strip trailing separators. -/
def stripTrailingSeparators (revPath : List Char) : List Char :=
  revPath.dropWhile (fun c => c == '/')

/-- `filepath.Base` (Unix): the last element of the path. -/
def Base (path : String) : String :=
  if path = "" then "."
  else
    let stripped := stripTrailingSeparators path.data.reverse
    let last := (stripped.takeWhile (fun c => c != '/')).reverse
    if last = [] then "/" else ⟨last⟩

/-! ## The collaborators: source databases and the merge target -/

/-- An `mmdbtype.Map` with string keys and string values. -/
abbrev Record := List (String × String)

/-- The file system as seen through `maxminddb.Open` followed by
`Reader.Networks`: the networks of the database at a path, in iteration
order, or the error of `Open`. -/
abbrev Files := String → Except String (List Prefix)

/-- The merge target `*mmdbwriter.Tree` with its state made explicit:
`Insert` returns the new state and the error, given by its message. -/
structure Tree (σ : Type) where
  Insert : σ → IPNet → Record → σ × Option String

/-- One call of `Insert`: the arguments and the error it returned. -/
structure Attempt where
  net : IPNet
  record : Record
  err : Option String
  deriving DecidableEq, Repr

/-- A target that behaves as `w` and also keeps the list of the calls of
`Insert` made on it, oldest first. -/
def traced {σ : Type} (w : Tree σ) : Tree (σ × List Attempt) where
  Insert := fun s n r =>
    let res := w.Insert s.1 n r
    ((res.1, s.2 ++ [⟨n, r, res.2⟩]), res.2)

/-- A target that accepts every network and keeps them in insertion order. -/
def acceptAll : Tree (List (IPNet × Record)) where
  Insert := fun s n r => (s ++ [(n, r)], none)

/-! ## The program: ingestion of one source -/

/-- The type `fileStats`; `ips` is a `uint64`. -/
structure fileStats where
  networks : Nat := 0
  skipped : Nat := 0
  ips : Nat := 0
  deriving DecidableEq, Repr

/-- The errors `processFile` returns: `opening MMDB file: <cause>` and
`inserting network <network>: <cause>`. -/
inductive ProcessError where
  | opening (cause : String)
  | inserting (network : Prefix) (cause : String)
  deriving DecidableEq

/-- The loop of `processFile` over the networks of the source. -/
def processLoop {σ : Type} (writer : Tree σ) (fromData : Record) :
    σ → fileStats → List Prefix → σ × fileStats × Option ProcessError
  | t, stats, [] => (t, stats, none)
  | t, stats, network :: rest =>
    if isReservedNetwork network.Addr.AsSlice then
      processLoop writer fromData t { stats with skipped := stats.skipped + 1 } rest
    else
      let ipnet := ParseCIDR network
      match writer.Insert t ipnet fromData with
      | (t1, some err) =>
        if Contains err "reserved network" then
          processLoop writer fromData t1 { stats with skipped := stats.skipped + 1 } rest
        else (t1, stats, some (.inserting network err))
      | (t1, none) =>
        processLoop writer fromData t1
          { stats with networks := stats.networks + 1,
                       ips := (stats.ips + countIPs ipnet) % 2 ^ 64 } rest

/-- The source name `processFile` tags networks with. -/
def sourceName (fullPath : String) : String :=
  TrimSuffix (Base fullPath) ".mmdb"

/-- The record `fromData` of `processFile`. -/
def fromData (fullPath : String) : Record := [("from", sourceName fullPath)]

/-- The function `processFile`: final target state, statistics, error. -/
def processFile {σ : Type} (fs : Files) (writer : Tree σ) (t : σ) (fullPath : String) :
    σ × fileStats × Option ProcessError :=
  match fs fullPath with
  | .error err => (t, {}, some (.opening err))
  | .ok reader => processLoop writer (fromData fullPath) t {} reader

/-! ## The program: the merge loop and the verification loop of `main` -/

/-- The running totals of `main`; `totalIPs` is a `uint64`. -/
structure Totals where
  totalNetworks : Nat := 0
  totalSkipped : Nat := 0
  totalIPs : Nat := 0
  deriving DecidableEq, Repr

/-- The loop of `main` over the input files; `log.Fatal` on the first
error, reported with the file. -/
def mergeLoop {σ : Type} (fs : Files) (writer : Tree σ) :
    σ → Totals → List String → σ × Except (String × ProcessError) Totals
  | t, tot, [] => (t, .ok tot)
  | t, tot, file :: rest =>
    match processFile fs writer t file with
    | (t1, _, some err) => (t1, .error (file, err))
    | (t1, stats, none) =>
      mergeLoop fs writer t1
        { totalNetworks := tot.totalNetworks + stats.networks,
          totalSkipped := tot.totalSkipped + stats.skipped,
          totalIPs := (tot.totalIPs + stats.ips) % 2 ^ 64 } rest

/-- The verification loop of `main` over the networks of the reopened
output: `outputNetworks` and `outputIPs`. -/
def verifyLoop : Nat × Nat → List Prefix → Nat × Nat
  | acc, [] => acc
  | acc, network :: rest =>
    verifyLoop (acc.1 + 1, (acc.2 + countIPs (ParseCIDR network)) % 2 ^ 64) rest

/-! ## The specification's vocabulary -/

/-- The number a byte slice denotes, most significant byte first. -/
def beValue : List Nat → Nat
  | [] => 0
  | b :: bs => b * 256 ^ bs.length + beValue bs

/-- Go reads a `net.IP` as an IPv4 address when it has 4 bytes, or 16 bytes
of which the first 12 are the IPv4-mapped prefix `::ffff:0:0/96`: "a 16-byte
slice can still be an IPv4 address" (documentation of `net.IP`). -/
def isIPv4 (a : List Nat) : Bool :=
  a.length == 4 || (a.length == 16 && a.take 12 == v4InV6Prefix)

/-- The width `W` of the family of an address: 32 or 128 bits. -/
def familyBits (a : List Nat) : Nat := if isIPv4 a then 32 else 128

/-- The address as a `W`-bit number. -/
def addrValue (a : List Nat) : Nat :=
  if isIPv4 a then beValue a % 2 ^ 32 else beValue a

/-- A CIDR block of the specification: the family's width `W`, the base
address as a number and the prefix length. -/
structure Block where
  W : Nat
  base : Nat
  len : Nat
  deriving DecidableEq, Repr

/-- An address of width `W` and value `v` lies inside the block: same
family, and the same `len` leading bits as the base address. -/
def Block.covers (b : Block) (W v : Nat) : Bool :=
  W == b.W && v / 2 ^ (b.W - b.len) == b.base / 2 ^ (b.W - b.len)

/-- The Reserved-Block Table as the specification lists it. -/
def reservedBlocks : List Block := [
  ⟨32, (ip4 10 0 0 0).val, 8⟩,
  ⟨32, (ip4 172 16 0 0).val, 12⟩,
  ⟨32, (ip4 192 168 0 0).val, 16⟩,
  ⟨128, (ip6 0xfc00 0 0 0 0 0 0 0).val, 7⟩,
  ⟨128, (ip6 0xfe80 0 0 0 0 0 0 0).val, 10⟩,
  ⟨32, (ip4 127 0 0 0).val, 8⟩,
  ⟨128, (ip6 0 0 0 0 0 0 0 1).val, 128⟩,
  ⟨32, (ip4 169 254 0 0).val, 16⟩,
  ⟨32, (ip4 0 0 0 0).val, 8⟩,
  ⟨128, (ip6 0 0 0 0 0 0 0 0).val, 128⟩,
  ⟨32, (ip4 100 64 0 0).val, 10⟩,
  ⟨32, (ip4 192 0 0 0).val, 24⟩,
  ⟨32, (ip4 192 0 2 0).val, 24⟩,
  ⟨32, (ip4 198 51 100 0).val, 24⟩,
  ⟨32, (ip4 203 0 113 0).val, 24⟩,
  ⟨32, (ip4 224 0 0 0).val, 4⟩,
  ⟨128, (ip6 0xff00 0 0 0 0 0 0 0).val, 8⟩
]

/-- The block a `net.IPNet` denotes: width and value of its network number,
leading ones of its mask. -/
def blockOf (n : IPNet) : Block :=
  ⟨8 * (networkNumberAndMask n).1.length, beValue (networkNumberAndMask n).1,
    (IPMask.Size n.Mask).1⟩

/-- A network as `net.ParseCIDR` builds it: a 4- or 16-byte network number
and a mask of leading ones of the same length. -/
def CanonicalNet (n : IPNet) : Prop :=
  ((networkNumberAndMask n).1.length = 4 ∨ (networkNumberAndMask n).1.length = 16)
    ∧ (networkNumberAndMask n).2
        = cidrMaskLoop (IPMask.Size n.Mask).1 (networkNumberAndMask n).1.length
    ∧ (IPMask.Size n.Mask).1 ≤ 8 * (networkNumberAndMask n).1.length
    ∧ ∀ x ∈ (networkNumberAndMask n).1, x < 256

instance (n : IPNet) : Decidable (CanonicalNet n) := by
  unfold CanonicalNet; infer_instance

/-- The first address of a block, as a number. -/
def Block.first (b : Block) : Nat :=
  b.base / 2 ^ (b.W - b.len) * 2 ^ (b.W - b.len)

/-- The last address of a block, as a number. -/
def Block.last (b : Block) : Nat := b.first + 2 ^ (b.W - b.len) - 1

/-- The addresses just outside a block's boundary, in the block's family:
the one immediately before its first address and the one immediately after
its last address, where the family has such an address. -/
def justOutside (b : Block) : List (List Nat) :=
  (if 0 < b.first then [beBytes (b.W / 8) (b.first - 1)] else [])
    ++ (if b.last + 1 < 2 ^ b.W then [beBytes (b.W / 8) (b.last + 1)] else [])

/-- What was passed to `Insert` in a call: network and record. -/
def Attempt.key (a : Attempt) : IPNet × Record := (a.net, a.record)

/-- The call returned no error. -/
def Attempt.succeeded (a : Attempt) : Bool := a.err.isNone

/-- The call returned an error whose message contains "reserved network". -/
def Attempt.rejectedReserved (a : Attempt) : Bool :=
  match a.err with
  | some e => Contains e "reserved network"
  | none => false

/-- The call returned an error of any other kind. -/
def Attempt.fatal (a : Attempt) : Bool :=
  match a.err with
  | some e => !Contains e "reserved network"
  | none => false

/-- The networks of the calls that succeeded, in order. -/
def inserted (log : List Attempt) : List IPNet :=
  (log.filter Attempt.succeeded).map Attempt.net

/-- The sum of `countIPs` over a list of networks, unreduced. -/
def sumIPs (nets : List IPNet) : Nat := (nets.map countIPs).sum

/-- The base address of the network is not reserved. -/
def retained (network : Prefix) : Bool := !isReservedNetwork network.Addr.AsSlice

/-- The insertions one source asks for: its networks with a base address
that is not reserved, in iteration order, each with the source's record. -/
def wanted (rec : Record) (nets : List Prefix) : List (IPNet × Record) :=
  (nets.filter retained).map (fun network => (ParseCIDR network, rec))

/-- The insertions a list of sources asks for, source by source in the given
order; the record of a source is `{"from": label}` with the label of its
file.  A source that does not open asks for none. -/
def wantedAll (fs : Files) : List String → List (IPNet × Record)
  | [] => []
  | file :: rest =>
    (match fs file with
      | .ok nets => wanted (fromData file) nets
      | .error _ => []) ++ wantedAll fs rest

/-- Every source of the list opens. -/
def allOpen (fs : Files) (files : List String) : Prop :=
  ∀ file ∈ files, ∃ nets, fs file = .ok nets

/-- The outcome of the merge loop is an error. -/
def isError {ε α : Type} : Except ε α → Bool
  | .error _ => true
  | .ok _ => false

/-! ## Concrete networks, sources and targets -/

/-- 203.0.113.0/24, TEST-NET-3. -/
def testNet3 : Prefix := ⟨ip4 203 0 113 0, 24, by decide⟩

/-- 8.8.8.0/24. -/
def net8 : Prefix := ⟨ip4 8 8 8 0, 24, by decide⟩

/-- 10.0.0.0/8, RFC1918. -/
def private10 : Prefix := ⟨ip4 10 0 0 0, 8, by decide⟩

/-- 1.1.1.0/24. -/
def net1 : Prefix := ⟨ip4 1 1 1 0, 24, by decide⟩

/-- 128.0.0.0/1, the upper half of the IPv4 space. -/
def upperHalf : Prefix := ⟨ip4 128 0 0 0, 1, by decide⟩

/-- Two sources: `/db/X.mmdb` holds 203.0.113.0/24 and `/db/Y.mmdb` holds
8.8.8.0/24. -/
def sourcesA : Files := fun path =>
  if path = "/db/X.mmdb" then .ok [testNet3]
  else if path = "/db/Y.mmdb" then .ok [net8]
  else .error "open: no such file or directory"

/-- One source, `/db/B.mmdb`, holding 10.0.0.0/8 and 1.1.1.0/24. -/
def sourcesB : Files := fun path =>
  if path = "/db/B.mmdb" then .ok [private10, net1]
  else .error "open: no such file or directory"

/-- One source, `/db/upper.mmdb`, holding 128.0.0.0/1. -/
def sourcesUpper : Files := fun path =>
  if path = "/db/upper.mmdb" then .ok [upperHalf]
  else .error "open: no such file or directory"

/-- 2002::/16, the 6to4 network. -/
def sixToFour : Prefix := ⟨ip6 0x2002 0 0 0 0 0 0 0, 16, by decide⟩

/-- 2a00::/16. -/
def net2a00 : Prefix := ⟨ip6 0x2a00 0 0 0 0 0 0 0, 16, by decide⟩

/-- Two sources: `/db/P.mmdb` holds 2002::/16 and `/db/Q.mmdb` holds
2a00::/16. -/
def sourcesSix : Files := fun path =>
  if path = "/db/P.mmdb" then .ok [sixToFour]
  else if path = "/db/Q.mmdb" then .ok [net2a00]
  else .error "open: no such file or directory"

/-- A target that, as `mmdbwriter` does with IPv4 aliasing enabled (its
default), refuses a network inside the aliased 6to4 block 2002::/16 and
accepts every other network, keeping them in insertion order.  The error
message is the one for 2002::/16 itself. -/
def aliasing : Tree (List (IPNet × Record)) where
  Insert := fun s n r =>
    if (ParseCIDR sixToFour).Contains n.IP && decide (16 ≤ (IPMask.Size n.Mask).1) then
      (s, some "attempt to insert 2002::/16, which is in an aliased network")
    else (s ++ [(n, r)], none)

/-- A target that fails every insertion with the given message and counts
the calls. -/
def failing (msg : String) : Tree Nat where
  Insert := fun s _ _ => (s + 1, some msg)

end Mmdbmerge


namespace Mmdbmerge

/-! ## Bytes and masks -/

set_option maxRecDepth 100000 in
theorem land_ff : ∀ a, a < 256 → a &&& 0xff = a := by decide

set_option maxRecDepth 100000 in
theorem land_mask : ∀ n, n < 8 → ∀ a, a < 256 →
    a &&& (0xff ^^^ (0xff >>> n)) = a / 2 ^ (8 - n) * 2 ^ (8 - n) := by decide

theorem beValue_lt (bs : List Nat) (h : ∀ x ∈ bs, x < 256) :
    beValue bs < 256 ^ bs.length := by
  induction bs with
  | nil => simp [beValue]
  | cons b bs ih =>
    have hb : b < 256 := h b (List.mem_cons_self _ _)
    have ht := ih (fun x hx => h x (List.mem_cons_of_mem _ hx))
    simp only [beValue, List.length_cons, pow_succ]
    nlinarith

theorem beValue_append (xs ys : List Nat) :
    beValue (xs ++ ys) = beValue xs * 256 ^ ys.length + beValue ys := by
  induction xs with
  | nil => simp [beValue]
  | cons x xs ih =>
    have hl : (xs ++ ys).length = xs.length + ys.length := List.length_append xs ys
    show x * 256 ^ (xs ++ ys).length + beValue (xs ++ ys) = _
    rw [ih, hl, pow_add]
    simp only [beValue]
    ring

/-- Two numbers `a * M + x` with `x < M` agree exactly when both parts do. -/
theorem digits_eq_iff (M a b x y : Nat) (hx : x < M) (hy : y < M) :
    a * M + x = b * M + y ↔ a = b ∧ x = y := by
  constructor
  · intro h
    have hM : 0 < M := by omega
    have h1 : (a * M + x) / M = a := by
      rw [Nat.add_comm, Nat.add_mul_div_right _ _ hM, Nat.div_eq_of_lt hx]; simp
    have h2 : (b * M + y) / M = b := by
      rw [Nat.add_comm, Nat.add_mul_div_right _ _ hM, Nat.div_eq_of_lt hy]; simp
    have hab : a = b := by rw [← h1, ← h2, h]
    subst hab
    exact ⟨rfl, by omega⟩
  · rintro ⟨rfl, rfl⟩; rfl

/-- The comparison loop under a mask of `n` leading ones compares the `n`
leading bits of the two numbers. -/
theorem containsLoop_iff : ∀ (l n : Nat) (nn ip : List Nat),
    nn.length = l → ip.length = l → (∀ x ∈ nn, x < 256) → (∀ x ∈ ip, x < 256) →
    n ≤ 8 * l →
    (containsLoop nn (cidrMaskLoop n l) ip = true
      ↔ beValue nn / 2 ^ (8 * l - n) = beValue ip / 2 ^ (8 * l - n)) := by
  intro l
  induction l with
  | zero =>
    intro n nn ip hnn hip _ _ _
    have h1 : nn = [] := List.length_eq_zero.mp hnn
    have h2 : ip = [] := List.length_eq_zero.mp hip
    subst h1 h2
    simp [containsLoop, cidrMaskLoop]
  | succ l ih =>
    intro n nn ip hnn hip hbn hbi hn
    obtain ⟨a, as, rfl⟩ := List.exists_cons_of_length_eq_add_one hnn
    obtain ⟨b, bs, rfl⟩ := List.exists_cons_of_length_eq_add_one hip
    have hal : as.length = l := by simpa using hnn
    have hbl : bs.length = l := by simpa using hip
    have ha : a < 256 := hbn a (List.mem_cons_self _ _)
    have hb : b < 256 := hbi b (List.mem_cons_self _ _)
    have hbn1 : ∀ x ∈ as, x < 256 := fun x hx => hbn x (List.mem_cons_of_mem _ hx)
    have hbi1 : ∀ x ∈ bs, x < 256 := fun x hx => hbi x (List.mem_cons_of_mem _ hx)
    have hva : beValue as < 256 ^ l := hal ▸ beValue_lt as hbn1
    have hvb : beValue bs < 256 ^ l := hbl ▸ beValue_lt bs hbi1
    have h256 : (256 : Nat) ^ l = 2 ^ (8 * l) := by
      rw [show (256 : Nat) = 2 ^ 8 by norm_num, ← pow_mul]
    by_cases h8 : n ≥ 8
    · -- a full mask byte: the heads must be equal, the tails compared on
      have hk : 8 * (l + 1) - n = 8 * l - (n - 8) := by omega
      have hkl : 8 * l - (n - 8) ≤ 8 * l := by omega
      have ih1 := ih (n - 8) as bs hal hbl hbn1 hbi1 (by omega)
      simp only [cidrMaskLoop, h8, if_true, containsLoop, beValue, hal, hbl, hk]
      rw [land_ff a ha, land_ff b hb]
      generalize 8 * l - (n - 8) = k at hkl ih1 ⊢
      have hsplit : (256 : Nat) ^ l = 2 ^ (8 * l - k) * 2 ^ k := by
        rw [h256, ← pow_add]; congr 1; omega
      have hpos : 0 < 2 ^ k := by positivity
      have hda : (a * 256 ^ l + beValue as) / 2 ^ k
          = a * 2 ^ (8 * l - k) + beValue as / 2 ^ k := by
        rw [hsplit, ← Nat.mul_assoc, Nat.add_comm, Nat.add_mul_div_right _ _ hpos,
          Nat.add_comm]
      have hdb : (b * 256 ^ l + beValue bs) / 2 ^ k
          = b * 2 ^ (8 * l - k) + beValue bs / 2 ^ k := by
        rw [hsplit, ← Nat.mul_assoc, Nat.add_comm, Nat.add_mul_div_right _ _ hpos,
          Nat.add_comm]
      have hxa : beValue as / 2 ^ k < 2 ^ (8 * l - k) := by
        apply Nat.div_lt_of_lt_mul; rw [Nat.mul_comm, ← hsplit]; exact hva
      have hxb : beValue bs / 2 ^ k < 2 ^ (8 * l - k) := by
        apply Nat.div_lt_of_lt_mul; rw [Nat.mul_comm, ← hsplit]; exact hvb
      rw [hda, hdb, digits_eq_iff _ _ _ _ _ hxa hxb, ← ih1]
      by_cases hab : a = b
      · simp [hab]
      · simp [hab]
    · -- a partial mask byte: only the leading bits of the heads count
      have hn8 : n < 8 := by omega
      have ih0 := ih 0 as bs hal hbl hbn1 hbi1 (by omega)
      have htail : containsLoop as (cidrMaskLoop 0 l) bs = true := by
        rw [ih0]
        simp only [Nat.sub_zero, ← h256]
        rw [Nat.div_eq_of_lt hva, Nat.div_eq_of_lt hvb]
      have hk : 8 * (l + 1) - n = 8 * l + (8 - n) := by omega
      simp only [cidrMaskLoop, h8, if_false, containsLoop, beValue, hal, hbl, hk, htail]
      rw [land_mask n hn8 a ha, land_mask n hn8 b hb]
      have hpos : 0 < 2 ^ (8 - n) := by positivity
      have hpl : 0 < 256 ^ l := by positivity
      have hda : (a * 256 ^ l + beValue as) / 2 ^ (8 * l + (8 - n)) = a / 2 ^ (8 - n) := by
        rw [pow_add, ← h256, ← Nat.div_div_eq_div_mul, Nat.add_comm,
          Nat.add_mul_div_right _ _ hpl, Nat.div_eq_of_lt hva, Nat.zero_add]
      have hdb : (b * 256 ^ l + beValue bs) / 2 ^ (8 * l + (8 - n)) = b / 2 ^ (8 - n) := by
        rw [pow_add, ← h256, ← Nat.div_div_eq_div_mul, Nat.add_comm,
          Nat.add_mul_div_right _ _ hpl, Nat.div_eq_of_lt hvb, Nat.zero_add]
      rw [hda, hdb]
      constructor
      · intro h
        by_contra hne
        have : a / 2 ^ (8 - n) * 2 ^ (8 - n) ≠ b / 2 ^ (8 - n) * 2 ^ (8 - n) := by
          intro he; exact hne (Nat.eq_of_mul_eq_mul_right hpos he)
        simp [this] at h
      · intro h; simp [h]

/-- The address `IPNet.Contains` compares: the 4-byte form when there is
one. -/
theorem to4_norm (a : List Nat) (hlen : a.length = 4 ∨ a.length = 16)
    (hb : ∀ x ∈ a, x < 256) :
    8 * (match IP.To4 a with | some x => x | none => a).length = familyBits a
      ∧ beValue (match IP.To4 a with | some x => x | none => a) = addrValue a
      ∧ ∀ x ∈ (match IP.To4 a with | some x => x | none => a), x < 256 := by
  rcases hlen with h4 | h16
  · have hv := beValue_lt a hb
    rw [h4] at hv
    have hmod : beValue a % 2 ^ 32 = beValue a := Nat.mod_eq_of_lt (by norm_num at hv ⊢; exact hv)
    simp only [IP.To4, h4, familyBits, addrValue, isIPv4, hmod, if_true, beq_self_eq_true,
      Bool.true_or]
    exact ⟨trivial, trivial, hb⟩
  · by_cases hm : a.take 12 = v4InV6Prefix
    · have hsplit : a = v4InV6Prefix ++ a.drop 12 := by
        rw [← hm]; exact (List.take_append_drop 12 a).symm
      have hdl : (a.drop 12).length = 4 := by simp [h16]
      have hdb : ∀ x ∈ a.drop 12, x < 256 := fun x hx => hb x (List.mem_of_mem_drop hx)
      have hv := beValue_lt (a.drop 12) hdb
      rw [hdl] at hv
      have hto : IP.To4 a = some (a.drop 12) := by
        have h10 : a.take 10 = [0, 0, 0, 0, 0, 0, 0, 0, 0, 0] := by
          have := congrArg (List.take 10) hm
          simpa [List.take_take, v4InV6Prefix] using this
        have hg10 : a.getD 10 0 = 0xff := by
          rw [hsplit]; simp [v4InV6Prefix]
        have hg11 : a.getD 11 0 = 0xff := by
          rw [hsplit]; simp [v4InV6Prefix]
        simp only [IP.To4, h16, h10, hg10, hg11]
        rfl
      have hval : beValue a % 2 ^ 32 = beValue (a.drop 12) := by
        conv_lhs => rw [hsplit, beValue_append, hdl]
        rw [show (256 : Nat) ^ 4 = 2 ^ 32 by norm_num, Nat.mul_add_mod_of_lt]
        norm_num at hv ⊢; exact hv
      rw [hto]
      simp only [familyBits, addrValue, isIPv4, h16, hm, hdl, hval]
      simp
      exact hdb
    · have hto : IP.To4 a = none := by
        have hne : ¬ (isZeros (a.take 10) = true ∧ a.getD 10 0 = 0xff ∧ a.getD 11 0 = 0xff) := by
          rintro ⟨hz, h10, h11⟩
          apply hm
          apply List.ext_getElem
          · simp [h16, v4InV6Prefix]
          · intro i h1 h2
            have hi : i < 12 := by simpa [v4InV6Prefix] using h2
            have hia : i < a.length := by omega
            rw [List.getElem_take]
            by_cases hi10 : i < 10
            · have hz1 : ∀ x ∈ a.take 10, x = 0 := by simpa [isZeros] using hz
              have hmem : a[i] ∈ a.take 10 := by
                rw [List.mem_take_iff_getElem]
                exact ⟨i, by omega, rfl⟩
              rw [hz1 _ hmem]
              interval_cases i <;> rfl
            · have h1011 : i = 10 ∨ i = 11 := by omega
              rcases h1011 with rfl | rfl
              · have : a.getD 10 0 = a[10] := by simp [List.getD, hia]
                rw [← this, h10]; rfl
              · have : a.getD 11 0 = a[11] := by simp [List.getD, hia]
                rw [← this, h11]; rfl
        simp only [IP.To4, h16, true_and]
        rw [if_neg (by norm_num), if_neg hne]
      rw [hto]
      simp [familyBits, addrValue, isIPv4, h16, hm]
      exact hb

/-- For a network as `net.ParseCIDR` builds it, `Contains` holds exactly for
the addresses of the block it denotes. -/
theorem Contains_iff_covers (n : IPNet) (hn : CanonicalNet n) (a : List Nat)
    (hlen : a.length = 4 ∨ a.length = 16) (hb : ∀ x ∈ a, x < 256) :
    n.Contains a = true ↔ (blockOf n).covers (familyBits a) (addrValue a) = true := by
  obtain ⟨hl, hmask, hones, hbytes⟩ := hn
  obtain ⟨hfam, hval, hnb⟩ := to4_norm a hlen hb
  unfold IPNet.Contains
  simp only []
  generalize (match IP.To4 a with | some x => x | none => a) = a1 at hfam hval hnb ⊢
  simp only [Block.covers, blockOf, Bool.and_eq_true, beq_iff_eq, ← hfam, ← hval]
  by_cases heq : a1.length = (networkNumberAndMask n).1.length
  · rw [if_neg (by simpa using heq), hmask]
    rw [containsLoop_iff _ _ _ _ rfl heq hbytes hnb hones, heq]
    constructor
    · intro h; exact ⟨rfl, h.symm⟩
    · intro h; exact h.2.symm
  · rw [if_pos (by simpa using heq)]
    constructor
    · intro h; simp at h
    · intro h; exact absurd (by omega) heq

theorem reservedNetworks_canonical : ∀ n ∈ reservedNetworks, CanonicalNet n := by
  decide

theorem reservedNetworks_blocks : reservedNetworks.map blockOf = reservedBlocks := by
  decide

/-- The scan of the table finds a network exactly when some block of the
specification's table covers the address. -/
theorem isReservedNetwork_iff (a : List Nat) (hlen : a.length = 4 ∨ a.length = 16)
    (hb : ∀ x ∈ a, x < 256) :
    isReservedNetwork a = true
      ↔ ∃ b ∈ reservedBlocks, b.covers (familyBits a) (addrValue a) = true := by
  rw [← reservedNetworks_blocks]
  simp only [isReservedNetwork, List.any_eq_true, List.mem_map]
  constructor
  · rintro ⟨n, hn, hc⟩
    exact ⟨blockOf n, ⟨n, hn, rfl⟩,
      (Contains_iff_covers n (reservedNetworks_canonical n hn) a hlen hb).mp hc⟩
  · rintro ⟨_, ⟨n, hn, rfl⟩, hc⟩
    exact ⟨n, hn, (Contains_iff_covers n (reservedNetworks_canonical n hn) a hlen hb).mpr hc⟩

/-! ## Address counts -/

set_option maxRecDepth 100000 in
theorem size_cidrMask_32 : ∀ p, p ≤ 32 → IPMask.Size (CIDRMask p 32) = (p, 32) := by decide

set_option maxRecDepth 100000 in
theorem size_cidrMask_128 : ∀ p, p ≤ 128 → IPMask.Size (CIDRMask p 128) = (p, 128) := by decide

set_option maxRecDepth 100000 in
/-- Eight rounds are enough for the bit-counting loop on a byte: it stops
because the next bit is zero, not because the rounds are used up. -/
theorem onesLoop_exits : ∀ v, v < 256 → (onesLoop 8 v).2 &&& 0x80 = 0 := by decide

theorem countIPs_of_size (n : IPNet) (W p : Nat) (h : IPMask.Size n.Mask = (p, W)) :
    countIPs n = if W - p < 64 then 2 ^ (W - p) else 0 := by
  unfold countIPs
  rw [h]
  simp only []
  by_cases hk : W - p < 64
  · have hlt : 2 ^ (W - p) < 2 ^ 64 := Nat.pow_lt_pow_right (by norm_num) hk
    rw [if_neg (by omega), if_pos hk, Nat.one_shiftLeft, Nat.mod_eq_of_lt hlt]
  · rw [if_pos (by omega), if_neg hk]

theorem size_ParseCIDR (pfx : Prefix) :
    IPMask.Size (ParseCIDR pfx).Mask = (pfx.Bits, pfx.Addr.BitLen) := by
  obtain ⟨⟨is4, v⟩, len, hv⟩ := pfx
  cases is4
  · exact size_cidrMask_128 len hv
  · exact size_cidrMask_32 len hv

/-! ## The claims on the reserved-space filter and the address count -/

/-- C1: for every IPv4 or IPv6 address `a` (a `net.IP` of 4 or 16 bytes),
`isReservedNetwork a` is true if and only if `a` lies inside at least one
block of the reserved table; in particular it is true for every address of
every block of the table.  A 4-byte slice is an IPv4 address, a 16-byte
slice an IPv6 address, except that Go reads the 16-byte IPv4-mapped form
`::ffff:a.b.c.d` as the IPv4 address `a.b.c.d`, and so does the filter. -/
theorem C1_isReservedNetwork_iff_inside_reserved_block (a : List Nat)
    (hlen : a.length = 4 ∨ a.length = 16) (hb : ∀ x ∈ a, x < 256) :
    (isReservedNetwork a = true
        ↔ ∃ b ∈ reservedBlocks, b.covers (familyBits a) (addrValue a) = true)
      ∧ (∀ b ∈ reservedBlocks, b.covers (familyBits a) (addrValue a) = true →
          isReservedNetwork a = true)
      ∧ (a.length = 4 → familyBits a = 32 ∧ addrValue a = beValue a)
      ∧ (a.length = 16 → a.take 12 ≠ v4InV6Prefix →
          familyBits a = 128 ∧ addrValue a = beValue a)
      ∧ (a.length = 16 → a.take 12 = v4InV6Prefix →
          familyBits a = 32 ∧ addrValue a = beValue (a.drop 12)
            ∧ isReservedNetwork a = isReservedNetwork (a.drop 12)) := by
  refine ⟨isReservedNetwork_iff a hlen hb,
    fun b hmem hc => (isReservedNetwork_iff a hlen hb).mpr ⟨b, hmem, hc⟩, ?_, ?_, ?_⟩
  · intro h4
    have hv := beValue_lt a hb
    rw [h4] at hv
    have hmod : beValue a % 2 ^ 32 = beValue a :=
      Nat.mod_eq_of_lt (by norm_num at hv ⊢; exact hv)
    simp only [familyBits, addrValue, isIPv4, h4, hmod]
    simp
  · intro h16 hm
    simp [familyBits, addrValue, isIPv4, h16, hm]
  · intro h16 hm
    have hdl : (a.drop 12).length = 4 := by simp [h16]
    have hdb : ∀ x ∈ a.drop 12, x < 256 := fun x hx => hb x (List.mem_of_mem_drop hx)
    have hv := beValue_lt (a.drop 12) hdb
    rw [hdl] at hv
    have hsplit : a = v4InV6Prefix ++ a.drop 12 := by
      rw [← hm]; exact (List.take_append_drop 12 a).symm
    have hval : beValue a % 2 ^ 32 = beValue (a.drop 12) := by
      conv_lhs => rw [hsplit, beValue_append, hdl]
      rw [show (256 : Nat) ^ 4 = 2 ^ 32 by norm_num, Nat.mul_add_mod_of_lt]
      norm_num at hv ⊢; exact hv
    have hmod : beValue (a.drop 12) % 2 ^ 32 = beValue (a.drop 12) :=
      Nat.mod_eq_of_lt (by norm_num at hv ⊢; exact hv)
    have hf : familyBits a = 32 := by simp [familyBits, isIPv4, h16, hm]
    have hav : addrValue a = beValue (a.drop 12) := by
      simp only [addrValue, isIPv4, h16, hm, hval]; simp
    have hf1 : familyBits (a.drop 12) = 32 := by simp [familyBits, isIPv4, hdl]
    have hav1 : addrValue (a.drop 12) = beValue (a.drop 12) := by
      simp only [addrValue, isIPv4, hdl, hmod]; simp
    refine ⟨hf, hav, ?_⟩
    rw [Bool.eq_iff_iff, isReservedNetwork_iff a hlen hb,
      isReservedNetwork_iff (a.drop 12) (Or.inl hdl) hdb, hf, hav, hf1, hav1]

/-- C1 at the address 169.254.7.9 of the IPv4 link-local block. -/
theorem C1_witness :
    (([169, 254, 7, 9] : List Nat).length = 4 ∨ ([169, 254, 7, 9] : List Nat).length = 16)
      ∧ (∀ x ∈ ([169, 254, 7, 9] : List Nat), x < 256)
      ∧ (isReservedNetwork [169, 254, 7, 9] = true
          ↔ ∃ b ∈ reservedBlocks,
              b.covers (familyBits [169, 254, 7, 9]) (addrValue [169, 254, 7, 9]) = true) :=
  ⟨by decide, by decide,
    (C1_isReservedNetwork_iff_inside_reserved_block [169, 254, 7, 9]
      (by decide) (by decide)).1⟩

/-- C2 as stated fails: the block `::/128` of the table has no address
before it, and the address after it, `::1`, is reserved, so not every block
has a neighbouring address that `isReservedNetwork` rejects. -/
theorem C2_counterexample :
    ¬ (∀ n ∈ reservedNetworks, ∃ a ∈ justOutside (blockOf n), isReservedNetwork a = false) := by
  decide

/-- C2 amended: every block of the reserved table other than `::/128` has an
address just outside its boundary for which `isReservedNetwork` returns
false; the only address next to `::/128` is `::1`, which is reserved. -/
theorem C2_neighbour_outside_except_unspecified (n : IPNet) (hn : n ∈ reservedNetworks)
    (hne : n ≠ mustParseCIDR (ip6 0 0 0 0 0 0 0 0) 128 (by decide)) :
    (∃ a ∈ justOutside (blockOf n), isReservedNetwork a = false)
      ∧ justOutside (blockOf (mustParseCIDR (ip6 0 0 0 0 0 0 0 0) 128 (by decide)))
          = [(ip6 0 0 0 0 0 0 0 1).AsSlice]
      ∧ isReservedNetwork (ip6 0 0 0 0 0 0 0 1).AsSlice = true := by
  refine ⟨?_, by decide, by decide⟩
  have hall : ∀ m ∈ reservedNetworks,
      m ≠ mustParseCIDR (ip6 0 0 0 0 0 0 0 0) 128 (by decide) →
      ∃ a ∈ justOutside (blockOf m), isReservedNetwork a = false := by decide
  exact hall n hn hne

/-- C2 amended, at the block 10.0.0.0/8. -/
theorem C2_witness :
    ∃ a ∈ justOutside (blockOf (mustParseCIDR (ip4 10 0 0 0) 8 (by decide))),
      isReservedNetwork a = false :=
  (C2_neighbour_outside_except_unspecified (mustParseCIDR (ip4 10 0 0 0) 8 (by decide))
    (by decide) (by decide)).1

/-- C3: for a prefix of length `p` in a family of `W` address bits (32 or
128), `countIPs` returns exactly `2^(W-p)` when `W-p < 64` and 0 when
`W-p >= 64`; the result fits 64 bits unwrapped and is 0 only in the second
case.  This holds for the network `processFile` builds from any prefix. -/
theorem C3_countIPs_exact (W p : Nat) (ip : List Nat) (hW : W = 32 ∨ W = 128) (hp : p ≤ W) :
    countIPs ⟨ip, CIDRMask p W⟩ = (if W - p < 64 then 2 ^ (W - p) else 0)
      ∧ countIPs ⟨ip, CIDRMask p W⟩ < 2 ^ 64
      ∧ (countIPs ⟨ip, CIDRMask p W⟩ = 0 ↔ W - p ≥ 64)
      ∧ (∀ pfx : Prefix, pfx.Addr.BitLen = W → pfx.Bits = p →
          countIPs (ParseCIDR pfx) = (if W - p < 64 then 2 ^ (W - p) else 0)) := by
  have hsize : IPMask.Size (CIDRMask p W) = (p, W) := by
    rcases hW with rfl | rfl
    · exact size_cidrMask_32 p hp
    · exact size_cidrMask_128 p hp
  have hc := countIPs_of_size ⟨ip, CIDRMask p W⟩ W p hsize
  refine ⟨hc, ?_, ?_, ?_⟩
  · rw [hc]
    by_cases hk : W - p < 64
    · rw [if_pos hk]; exact Nat.pow_lt_pow_right (by norm_num) hk
    · rw [if_neg hk]; norm_num
  · rw [hc]
    by_cases hk : W - p < 64
    · rw [if_pos hk]
      have : 0 < 2 ^ (W - p) := by positivity
      omega
    · rw [if_neg hk]; omega
  · intro pfx h1 h2
    exact countIPs_of_size (ParseCIDR pfx) W p (by rw [size_ParseCIDR, h1, h2])

/-- C3 at an IPv6 /100: `2^28` addresses. -/
theorem C3_witness :
    countIPs ⟨[], CIDRMask 100 128⟩ = 2 ^ 28 :=
  (C3_countIPs_exact 128 100 [] (Or.inr rfl) (by decide)).1

/-! ## The ingestion loop -/

theorem processLoop_nil {σ : Type} (w : Tree σ) (rec : Record) (t : σ) (stats : fileStats) :
    processLoop w rec t stats [] = (t, stats, none) := rfl

theorem processLoop_reserved {σ : Type} (w : Tree σ) (rec : Record) (t : σ)
    (stats : fileStats) (network : Prefix) (rest : List Prefix)
    (h : isReservedNetwork network.Addr.AsSlice = true) :
    processLoop w rec t stats (network :: rest)
      = processLoop w rec t { stats with skipped := stats.skipped + 1 } rest := by
  simp [processLoop, h]

theorem processLoop_rejected {σ : Type} (w : Tree σ) (rec : Record) (t t1 : σ)
    (stats : fileStats) (network : Prefix) (rest : List Prefix) (err : String)
    (h : isReservedNetwork network.Addr.AsSlice = false)
    (hins : w.Insert t (ParseCIDR network) rec = (t1, some err))
    (hc : Contains err "reserved network" = true) :
    processLoop w rec t stats (network :: rest)
      = processLoop w rec t1 { stats with skipped := stats.skipped + 1 } rest := by
  simp [processLoop, h, hins, hc]

theorem processLoop_fatal {σ : Type} (w : Tree σ) (rec : Record) (t t1 : σ)
    (stats : fileStats) (network : Prefix) (rest : List Prefix) (err : String)
    (h : isReservedNetwork network.Addr.AsSlice = false)
    (hins : w.Insert t (ParseCIDR network) rec = (t1, some err))
    (hc : Contains err "reserved network" = false) :
    processLoop w rec t stats (network :: rest)
      = (t1, stats, some (.inserting network err)) := by
  simp [processLoop, h, hins, hc]

theorem processLoop_inserted {σ : Type} (w : Tree σ) (rec : Record) (t t1 : σ)
    (stats : fileStats) (network : Prefix) (rest : List Prefix)
    (h : isReservedNetwork network.Addr.AsSlice = false)
    (hins : w.Insert t (ParseCIDR network) rec = (t1, none)) :
    processLoop w rec t stats (network :: rest)
      = processLoop w rec t1
          { stats with networks := stats.networks + 1,
                       ips := (stats.ips + countIPs (ParseCIDR network)) % 2 ^ 64 } rest := by
  simp [processLoop, h, hins]

theorem traced_Insert {σ : Type} (w : Tree σ) (t : σ) (log : List Attempt) (n : IPNet)
    (rec : Record) :
    (traced w).Insert (t, log) n rec
      = (((w.Insert t n rec).1, log ++ [⟨n, rec, (w.Insert t n rec).2⟩]),
          (w.Insert t n rec).2) := rfl

/-- Retained plus skipped grows by the number of networks read, when the
loop ends without error. -/
theorem processLoop_count {σ : Type} (w : Tree σ) (rec : Record) :
    ∀ (nets : List Prefix) (t : σ) (stats : fileStats),
      (processLoop w rec t stats nets).2.2 = none →
      (processLoop w rec t stats nets).2.1.networks
          + (processLoop w rec t stats nets).2.1.skipped
        = stats.networks + stats.skipped + nets.length := by
  intro nets
  induction nets with
  | nil => intro t stats _; simp [processLoop]
  | cons network rest ih =>
    intro t stats
    cases hres : isReservedNetwork network.Addr.AsSlice
    · rcases hins : w.Insert t (ParseCIDR network) rec with ⟨t1, _ | err⟩
      · rw [processLoop_inserted w rec t t1 stats network rest hres hins]
        intro h
        rw [ih _ _ h]
        simp only [List.length_cons]; omega
      · cases hc : Contains err "reserved network"
        · rw [processLoop_fatal w rec t t1 stats network rest err hres hins hc]
          intro h; simp at h
        · rw [processLoop_rejected w rec t t1 stats network rest err hres hins hc]
          intro h
          rw [ih _ _ h]
          simp only [List.length_cons]; omega
    · rw [processLoop_reserved w rec t stats network rest hres]
      intro h
      rw [ih _ _ h]
      simp only [List.length_cons]; omega

theorem mem_dropLast_cons {α : Type} (a x : α) (l : List α)
    (h : x ∈ (a :: l).dropLast) : x = a ∨ x ∈ l.dropLast := by
  cases l with
  | nil => simp [List.dropLast] at h
  | cons b l => simpa [List.dropLast] using h

theorem getLast?_cons_of_some {α : Type} (a x : α) (l : List α)
    (h : l.getLast? = some x) : (a :: l).getLast? = some x := by
  cases l with
  | nil => simp at h
  | cons b l => simpa [List.getLast?_cons_cons] using h

theorem wanted_cons_retained (rec : Record) (network : Prefix) (rest : List Prefix)
    (h : isReservedNetwork network.Addr.AsSlice = false) :
    wanted rec (network :: rest) = (ParseCIDR network, rec) :: wanted rec rest := by
  simp [wanted, retained, h]

theorem wanted_cons_reserved (rec : Record) (network : Prefix) (rest : List Prefix)
    (h : isReservedNetwork network.Addr.AsSlice = true) :
    wanted rec (network :: rest) = wanted rec rest := by
  simp [wanted, retained, h]

/-- The run of the loop on a traced target, described by the calls of
`Insert` it adds to the trace. -/
theorem processLoop_trace {σ : Type} (w : Tree σ) (rec : Record) :
    ∀ (nets : List Prefix) (t : σ) (log : List Attempt) (stats : fileStats),
      ∃ new : List Attempt,
        (processLoop (traced w) rec (t, log) stats nets).1.2 = log ++ new
        ∧ (∃ todo, wanted rec nets = new.map Attempt.key ++ todo)
        ∧ ((processLoop (traced w) rec (t, log) stats nets).2.2 = none →
            new.map Attempt.key = wanted rec nets)
        ∧ (processLoop (traced w) rec (t, log) stats nets).2.1.networks
            = stats.networks + (inserted new).length
        ∧ (processLoop (traced w) rec (t, log) stats nets).2.1.ips % 2 ^ 64
            = (stats.ips + sumIPs (inserted new)) % 2 ^ 64
        ∧ ((processLoop (traced w) rec (t, log) stats nets).2.2 = none →
            (processLoop (traced w) rec (t, log) stats nets).2.1.skipped
              = stats.skipped + (nets.filter (fun n => !retained n)).length
                + (new.filter Attempt.rejectedReserved).length)
        ∧ ((processLoop (traced w) rec (t, log) stats nets).2.2 ≠ none
            ↔ ∃ a ∈ new, a.fatal = true)
        ∧ (∀ a ∈ new.dropLast, a.fatal = false)
        ∧ (∀ e, (processLoop (traced w) rec (t, log) stats nets).2.2 = some e →
            ∃ network cause, e = .inserting network cause ∧ network ∈ nets
              ∧ retained network = true ∧ Contains cause "reserved network" = false
              ∧ new.getLast? = some ⟨ParseCIDR network, rec, some cause⟩) := by
  intro nets
  induction nets with
  | nil =>
    intro t log stats
    refine ⟨[], ?_⟩
    simp [processLoop, wanted, inserted, sumIPs]
  | cons network rest ih =>
    intro t log stats
    cases hres : isReservedNetwork network.Addr.AsSlice
    · have hw := wanted_cons_retained rec network rest hres
      have hret : retained network = true := by simp [retained, hres]
      rcases hins : w.Insert t (ParseCIDR network) rec with ⟨t1, _ | err⟩
      · -- the insertion succeeds
        have hins1 : (traced w).Insert (t, log) (ParseCIDR network) rec
            = ((t1, log ++ [⟨ParseCIDR network, rec, none⟩]), none) := by
          rw [traced_Insert, hins]
        rw [processLoop_inserted (traced w) rec _ _ stats network rest hres hins1]
        obtain ⟨new, h1, ⟨todo, h2⟩, h3, h4, h5, h6, h7, h8, h9⟩ :=
          ih t1 (log ++ [⟨ParseCIDR network, rec, none⟩])
            { stats with networks := stats.networks + 1,
                         ips := (stats.ips + countIPs (ParseCIDR network)) % 2 ^ 64 }
        refine ⟨⟨ParseCIDR network, rec, none⟩ :: new, ?_, ⟨todo, ?_⟩, ?_, ?_, ?_, ?_, ?_, ?_, ?_⟩
        · rw [h1]; simp
        · rw [hw, h2]; simp [Attempt.key]
        · intro h; rw [hw, ← h3 h]; simp [Attempt.key]
        · rw [h4]; simp [inserted, Attempt.succeeded]; omega
        · rw [h5]
          simp only [inserted, Attempt.succeeded, sumIPs, List.filter_cons, Option.isNone_none,
            if_true, List.map_cons, List.sum_cons]
          rw [Nat.add_mod, Nat.mod_mod, ← Nat.add_mod]
          congr 1; omega
        · intro h; rw [h6 h]
          simp [hret, Attempt.rejectedReserved]
        · rw [h7]; simp [Attempt.fatal]
        · intro a ha
          rcases mem_dropLast_cons _ _ _ ha with rfl | ha1
          · rfl
          · exact h8 a ha1
        · intro e he
          obtain ⟨n1, cause, hc1, hc2, hc3, hc4, hc5⟩ := h9 e he
          exact ⟨n1, cause, hc1, List.mem_cons_of_mem _ hc2, hc3, hc4,
            getLast?_cons_of_some _ _ _ hc5⟩
      · cases hc : Contains err "reserved network"
        · -- the insertion fails for another reason
          have hins1 : (traced w).Insert (t, log) (ParseCIDR network) rec
              = ((t1, log ++ [⟨ParseCIDR network, rec, some err⟩]), some err) := by
            rw [traced_Insert, hins]
          rw [processLoop_fatal (traced w) rec _ _ stats network rest err hres hins1 hc]
          refine ⟨[⟨ParseCIDR network, rec, some err⟩], rfl, ⟨wanted rec rest, ?_⟩, ?_, ?_, ?_,
            ?_, ?_, ?_, ?_⟩
          · rw [hw]; simp [Attempt.key]
          · intro h; simp at h
          · simp [inserted, Attempt.succeeded]
          · simp [inserted, Attempt.succeeded, sumIPs]
          · intro h; simp at h
          · simp [Attempt.fatal, hc]
          · intro a ha; simp [List.dropLast] at ha
          · intro e he
            refine ⟨network, err, ?_, List.mem_cons_self _ _, hret, hc, rfl⟩
            simpa using he.symm
        · -- the target rejects the network as reserved
          have hins1 : (traced w).Insert (t, log) (ParseCIDR network) rec
              = ((t1, log ++ [⟨ParseCIDR network, rec, some err⟩]), some err) := by
            rw [traced_Insert, hins]
          rw [processLoop_rejected (traced w) rec _ _ stats network rest err hres hins1 hc]
          obtain ⟨new, h1, ⟨todo, h2⟩, h3, h4, h5, h6, h7, h8, h9⟩ :=
            ih t1 (log ++ [⟨ParseCIDR network, rec, some err⟩])
              { stats with skipped := stats.skipped + 1 }
          refine ⟨⟨ParseCIDR network, rec, some err⟩ :: new, ?_, ⟨todo, ?_⟩, ?_, ?_, ?_, ?_,
            ?_, ?_, ?_⟩
          · rw [h1]; simp
          · rw [hw, h2]; simp [Attempt.key]
          · intro h; rw [hw, ← h3 h]; simp [Attempt.key]
          · rw [h4]; simp [inserted, Attempt.succeeded]
          · rw [h5]; simp [inserted, Attempt.succeeded]
          · intro h; rw [h6 h]
            simp [hret, Attempt.rejectedReserved, hc]; omega
          · rw [h7]; simp [Attempt.fatal, hc]
          · intro a ha
            rcases mem_dropLast_cons _ _ _ ha with rfl | ha1
            · simp [Attempt.fatal, hc]
            · exact h8 a ha1
          · intro e he
            obtain ⟨n1, cause, hc1, hc2, hc3, hc4, hc5⟩ := h9 e he
            exact ⟨n1, cause, hc1, List.mem_cons_of_mem _ hc2, hc3, hc4,
              getLast?_cons_of_some _ _ _ hc5⟩
    · -- the filter of the program skips the network
      have hw := wanted_cons_reserved rec network rest hres
      have hret : retained network = false := by simp [retained, hres]
      rw [processLoop_reserved (traced w) rec _ stats network rest hres]
      obtain ⟨new, h1, ⟨todo, h2⟩, h3, h4, h5, h6, h7, h8, h9⟩ :=
        ih t log { stats with skipped := stats.skipped + 1 }
      refine ⟨new, h1, ⟨todo, ?_⟩, ?_, h4, h5, ?_, h7, h8, ?_⟩
      · rw [hw, h2]
      · intro h; rw [hw, ← h3 h]
      · intro h; rw [h6 h]
        simp [hret]; omega
      · intro e he
        obtain ⟨n1, cause, hc1, hc2, hc3, hc4, hc5⟩ := h9 e he
        exact ⟨n1, cause, hc1, List.mem_cons_of_mem _ hc2, hc3, hc4, hc5⟩

theorem processLoop_ips_lt {σ : Type} (w : Tree σ) (rec : Record) :
    ∀ (nets : List Prefix) (t : σ) (stats : fileStats), stats.ips < 2 ^ 64 →
      (processLoop w rec t stats nets).2.1.ips < 2 ^ 64 := by
  intro nets
  induction nets with
  | nil => intro t stats h; simpa [processLoop] using h
  | cons network rest ih =>
    intro t stats h
    cases hres : isReservedNetwork network.Addr.AsSlice
    · rcases hins : w.Insert t (ParseCIDR network) rec with ⟨t1, _ | err⟩
      · rw [processLoop_inserted w rec t t1 stats network rest hres hins]
        exact ih _ _ (Nat.mod_lt _ (by norm_num))
      · cases hc : Contains err "reserved network"
        · rw [processLoop_fatal w rec t t1 stats network rest err hres hins hc]
          exact h
        · rw [processLoop_rejected w rec t t1 stats network rest err hres hins hc]
          exact ih _ _ h
    · rw [processLoop_reserved w rec t stats network rest hres]
      exact ih _ _ h

/-! ## The merge loop -/

theorem mod_acc (a b s1 s2 : Nat) (h : b % 2 ^ 64 = (0 + s1) % 2 ^ 64) :
    ((a + b) % 2 ^ 64 + s2) % 2 ^ 64 = (a + (s1 + s2)) % 2 ^ 64 := by
  omega

theorem mergeLoop_open_error {σ : Type} (fs : Files) (w : Tree σ) (t : σ) (tot : Totals)
    (file : String) (rest : List String) (cause : String) (hfs : fs file = .error cause) :
    mergeLoop fs w t tot (file :: rest) = (t, .error (file, .opening cause)) := by
  simp [mergeLoop, processFile, hfs]

theorem mergeLoop_fatal {σ : Type} (fs : Files) (w : Tree σ) (t t1 : σ) (tot : Totals)
    (file : String) (rest : List String) (nets : List Prefix) (stats : fileStats)
    (e : ProcessError) (hfs : fs file = .ok nets)
    (hrun : processLoop w (fromData file) t {} nets = (t1, stats, some e)) :
    mergeLoop fs w t tot (file :: rest) = (t1, .error (file, e)) := by
  simp [mergeLoop, processFile, hfs, hrun]

theorem mergeLoop_next {σ : Type} (fs : Files) (w : Tree σ) (t t1 : σ) (tot : Totals)
    (file : String) (rest : List String) (nets : List Prefix) (stats : fileStats)
    (hfs : fs file = .ok nets)
    (hrun : processLoop w (fromData file) t {} nets = (t1, stats, none)) :
    mergeLoop fs w t tot (file :: rest)
      = mergeLoop fs w t1
          { totalNetworks := tot.totalNetworks + stats.networks,
            totalSkipped := tot.totalSkipped + stats.skipped,
            totalIPs := (tot.totalIPs + stats.ips) % 2 ^ 64 } rest := by
  simp [mergeLoop, processFile, hfs, hrun]

theorem mem_dropLast_append {α : Type} (x : α) (l1 l2 : List α)
    (h : x ∈ (l1 ++ l2).dropLast) : x ∈ l1 ∨ x ∈ l2.dropLast := by
  induction l1 with
  | nil => right; simpa using h
  | cons a l1 ih =>
    rcases mem_dropLast_cons a x (l1 ++ l2) (by simpa using h) with rfl | h1
    · left; exact List.mem_cons_self _ _
    · rcases ih h1 with h2 | h2
      · left; exact List.mem_cons_of_mem _ h2
      · right; exact h2

theorem getLast?_append_of_some {α : Type} (x : α) (l1 l2 : List α)
    (h : l2.getLast? = some x) : (l1 ++ l2).getLast? = some x := by
  induction l1 with
  | nil => simpa using h
  | cons a l1 ih => exact getLast?_cons_of_some a x (l1 ++ l2) ih

theorem mergeLoop_ips_lt {σ : Type} (fs : Files) (w : Tree σ) :
    ∀ (files : List String) (t : σ) (tot tot1 : Totals), tot.totalIPs < 2 ^ 64 →
      (mergeLoop fs w t tot files).2 = .ok tot1 → tot1.totalIPs < 2 ^ 64 := by
  intro files
  induction files with
  | nil =>
    intro t tot tot1 h hrun
    simp only [mergeLoop, Except.ok.injEq] at hrun
    rw [← hrun]; exact h
  | cons file rest ih =>
    intro t tot tot1 h hrun
    cases hfs : fs file with
    | error cause =>
      rw [mergeLoop_open_error fs w t tot file rest cause hfs] at hrun
      simp at hrun
    | ok nets =>
      rcases hR : processLoop w (fromData file) t {} nets with ⟨t1, stats, _ | e⟩
      · rw [mergeLoop_next fs w t t1 tot file rest nets stats hfs hR] at hrun
        exact ih _ _ _ (Nat.mod_lt _ (by norm_num)) hrun
      · rw [mergeLoop_fatal fs w t t1 tot file rest nets stats e hfs hR] at hrun
        simp at hrun

/-- The run of the merge loop on a traced target, described by the calls of
`Insert` it adds to the trace. -/
theorem mergeLoop_trace {σ : Type} (fs : Files) (w : Tree σ) :
    ∀ (files : List String) (t : σ) (log : List Attempt) (tot : Totals),
      ∃ new : List Attempt,
        (mergeLoop fs (traced w) (t, log) tot files).1.2 = log ++ new
        ∧ (∃ todo, wantedAll fs files = new.map Attempt.key ++ todo)
        ∧ (∀ tot1, (mergeLoop fs (traced w) (t, log) tot files).2 = .ok tot1 →
            new.map Attempt.key = wantedAll fs files
            ∧ tot1.totalNetworks = tot.totalNetworks + (inserted new).length
            ∧ tot1.totalIPs % 2 ^ 64 = (tot.totalIPs + sumIPs (inserted new)) % 2 ^ 64)
        ∧ (allOpen fs files →
            (isError (mergeLoop fs (traced w) (t, log) tot files).2 = true
              ↔ ∃ a ∈ new, a.fatal = true))
        ∧ (∀ a ∈ new.dropLast, a.fatal = false)
        ∧ (∀ file e, (mergeLoop fs (traced w) (t, log) tot files).2 = .error (file, e) →
            file ∈ files
            ∧ ((∃ cause, e = .opening cause ∧ fs file = .error cause)
              ∨ ∃ nets network cause, fs file = .ok nets ∧ network ∈ nets
                  ∧ e = .inserting network cause ∧ retained network = true
                  ∧ Contains cause "reserved network" = false
                  ∧ new.getLast? = some ⟨ParseCIDR network, fromData file, some cause⟩)) := by
  intro files
  induction files with
  | nil =>
    intro t log tot
    refine ⟨[], ?_⟩
    simp [mergeLoop, wantedAll, inserted, sumIPs, isError]
  | cons file rest ih =>
    intro t log tot
    cases hfs : fs file with
    | error cause =>
      rw [mergeLoop_open_error fs (traced w) (t, log) tot file rest cause hfs]
      refine ⟨[], by simp, ⟨wantedAll fs (file :: rest), by simp⟩, ?_, ?_, ?_, ?_⟩
      · intro tot1 h; simp at h
      · intro hopen
        obtain ⟨nets, hn⟩ := hopen file (List.mem_cons_self _ _)
        rw [hfs] at hn; simp at hn
      · intro a ha; simp at ha
      · intro f e h
        simp only [Except.error.injEq, Prod.mk.injEq] at h
        obtain ⟨rfl, rfl⟩ := h
        exact ⟨List.mem_cons_self _ _, Or.inl ⟨cause, rfl, hfs⟩⟩
    | ok nets =>
      have hwa : wantedAll fs (file :: rest)
          = wanted (fromData file) nets ++ wantedAll fs rest := by
        simp [wantedAll, hfs]
      obtain ⟨new1, h1, ⟨todo1, h2⟩, h3, h4, h5, _, h7, h8, h9⟩ :=
        processLoop_trace w (fromData file) nets t log {}
      rcases hR : processLoop (traced w) (fromData file) (t, log) {} nets
        with ⟨⟨t1, log1⟩, stats, _ | e⟩
      · -- the source is ingested without error
        rw [hR] at h1 h3 h4 h5 h7
        simp only at h1 h3 h4 h5 h7
        subst h1
        have hk := h3 trivial
        have hnof : ∀ a ∈ new1, a.fatal = false := by
          intro a ha
          by_contra hf
          exact (h7.mpr ⟨a, ha, by simpa using hf⟩) rfl
        rw [mergeLoop_next fs (traced w) (t, log) (t1, log ++ new1) tot file rest nets stats
          hfs hR]
        obtain ⟨new2, g1, ⟨todo2, g2⟩, g3, g4, g5, g6⟩ :=
          ih t1 (log ++ new1)
            { totalNetworks := tot.totalNetworks + stats.networks,
              totalSkipped := tot.totalSkipped + stats.skipped,
              totalIPs := (tot.totalIPs + stats.ips) % 2 ^ 64 }
        refine ⟨new1 ++ new2, ?_, ⟨todo2, ?_⟩, ?_, ?_, ?_, ?_⟩
        · rw [g1]; simp
        · rw [hwa, ← hk, g2]; simp
        · intro tot1 hok
          obtain ⟨k1, k2, k3⟩ := g3 tot1 hok
          refine ⟨?_, ?_, ?_⟩
          · rw [hwa, ← hk, ← k1]; simp
          · rw [k2, h4]
            simp [inserted, List.filter_append]; omega
          · rw [k3]
            simp only [inserted, sumIPs, List.filter_append, List.map_append, List.sum_append]
            simp only [inserted, sumIPs] at h5
            exact mod_acc _ _ _ _ h5
        · intro hopen
          rw [g4 (fun f hf => hopen f (List.mem_cons_of_mem _ hf))]
          constructor
          · rintro ⟨a, ha, hf⟩
            exact ⟨a, List.mem_append_right _ ha, hf⟩
          · rintro ⟨a, ha, hf⟩
            rcases List.mem_append.mp ha with ha1 | ha2
            · rw [hnof a ha1] at hf; simp at hf
            · exact ⟨a, ha2, hf⟩
        · intro a ha
          rcases mem_dropLast_append a new1 new2 ha with ha1 | ha2
          · exact hnof a ha1
          · exact g5 a ha2
        · intro f e he
          obtain ⟨hm, hcase⟩ := g6 f e he
          refine ⟨List.mem_cons_of_mem _ hm, ?_⟩
          rcases hcase with hcase | ⟨nets1, network, cause, c1, c2, c3, c4, c5, c6⟩
          · exact Or.inl hcase
          · exact Or.inr ⟨nets1, network, cause, c1, c2, c3, c4, c5,
              getLast?_append_of_some _ _ _ c6⟩
      · -- the source ends in a fatal insertion error
        rw [hR] at h1 h7 h9
        simp only at h1 h7 h9
        subst h1
        rw [mergeLoop_fatal fs (traced w) (t, log) (t1, log ++ new1) tot file rest nets stats e
          hfs hR]
        refine ⟨new1, rfl, ⟨todo1 ++ wantedAll fs rest, ?_⟩, ?_, ?_, h8, ?_⟩
        · rw [hwa, h2]; simp
        · intro tot1 h; simp at h
        · intro _
          rw [← h7]; simp [isError]
        · intro f e1 h
          simp only [Except.error.injEq, Prod.mk.injEq] at h
          obtain ⟨rfl, rfl⟩ := h
          obtain ⟨network, cause, c1, c2, c3, c4, c5⟩ := h9 e rfl
          exact ⟨List.mem_cons_self _ _,
            Or.inr ⟨nets, network, cause, hfs, c2, c1, c3, c4, c5⟩⟩

/-- Tracing changes nothing: the traced target goes through the same states
and the loop returns the same statistics and error. -/
theorem processLoop_traced_eq {σ : Type} (w : Tree σ) (rec : Record) :
    ∀ (nets : List Prefix) (t : σ) (log : List Attempt) (stats : fileStats),
      (processLoop (traced w) rec (t, log) stats nets).1.1
          = (processLoop w rec t stats nets).1
        ∧ (processLoop (traced w) rec (t, log) stats nets).2
          = (processLoop w rec t stats nets).2 := by
  intro nets
  induction nets with
  | nil => intro t log stats; exact ⟨rfl, rfl⟩
  | cons network rest ih =>
    intro t log stats
    cases hres : isReservedNetwork network.Addr.AsSlice
    · rcases hins : w.Insert t (ParseCIDR network) rec with ⟨t1, _ | err⟩
      · have hins1 : (traced w).Insert (t, log) (ParseCIDR network) rec
            = ((t1, log ++ [⟨ParseCIDR network, rec, none⟩]), none) := by
          rw [traced_Insert, hins]
        rw [processLoop_inserted (traced w) rec _ _ stats network rest hres hins1,
          processLoop_inserted w rec t t1 stats network rest hres hins]
        exact ih _ _ _
      · have hins1 : (traced w).Insert (t, log) (ParseCIDR network) rec
            = ((t1, log ++ [⟨ParseCIDR network, rec, some err⟩]), some err) := by
          rw [traced_Insert, hins]
        cases hc : Contains err "reserved network"
        · rw [processLoop_fatal (traced w) rec _ _ stats network rest err hres hins1 hc,
            processLoop_fatal w rec t t1 stats network rest err hres hins hc]
          exact ⟨rfl, rfl⟩
        · rw [processLoop_rejected (traced w) rec _ _ stats network rest err hres hins1 hc,
            processLoop_rejected w rec t t1 stats network rest err hres hins hc]
          exact ih _ _ _
    · rw [processLoop_reserved (traced w) rec _ stats network rest hres,
        processLoop_reserved w rec t stats network rest hres]
      exact ih _ _ _

/-- Tracing changes nothing in the merge loop either. -/
theorem mergeLoop_traced_eq {σ : Type} (fs : Files) (w : Tree σ) :
    ∀ (files : List String) (t : σ) (log : List Attempt) (tot : Totals),
      (mergeLoop fs (traced w) (t, log) tot files).1.1 = (mergeLoop fs w t tot files).1
        ∧ (mergeLoop fs (traced w) (t, log) tot files).2 = (mergeLoop fs w t tot files).2 := by
  intro files
  induction files with
  | nil => intro t log tot; exact ⟨rfl, rfl⟩
  | cons file rest ih =>
    intro t log tot
    cases hfs : fs file with
    | error cause =>
      rw [mergeLoop_open_error fs (traced w) (t, log) tot file rest cause hfs,
        mergeLoop_open_error fs w t tot file rest cause hfs]
      exact ⟨rfl, rfl⟩
    | ok nets =>
      obtain ⟨e1, e2⟩ := processLoop_traced_eq w (fromData file) nets t log {}
      rcases hR : processLoop (traced w) (fromData file) (t, log) {} nets
        with ⟨⟨t1, log1⟩, stats, err⟩
      rcases hS : processLoop w (fromData file) t {} nets with ⟨t2, stats2, err2⟩
      rw [hR, hS] at e1 e2
      simp only [Prod.mk.injEq] at e1 e2
      obtain ⟨rfl, rfl⟩ := e2
      subst e1
      cases err with
      | none =>
        rw [mergeLoop_next fs (traced w) (t, log) (t1, log1) tot file rest nets stats hfs hR,
          mergeLoop_next fs w t t1 tot file rest nets stats hfs hS]
        exact ih _ _ _
      | some e =>
        rw [mergeLoop_fatal fs (traced w) (t, log) (t1, log1) tot file rest nets stats e hfs hR,
          mergeLoop_fatal fs w t t1 tot file rest nets stats e hfs hS]
        exact ⟨rfl, rfl⟩

/-! ## The claims on ingestion and merge -/

theorem beBytes_length (n v : Nat) : (beBytes n v).length = n := by
  induction n with
  | zero => rfl
  | succ n ih => simp [beBytes, ih]

theorem beBytes_lt (n v : Nat) : ∀ x ∈ beBytes n v, x < 256 := by
  induction n with
  | zero => intro x hx; simp [beBytes] at hx
  | succ n ih =>
    intro x hx
    simp only [beBytes, List.mem_cons] at hx
    rcases hx with rfl | hx
    · exact Nat.mod_lt _ (by norm_num)
    · exact ih x hx

theorem AsSlice_valid (a : Addr) :
    (a.AsSlice.length = 4 ∨ a.AsSlice.length = 16) ∧ ∀ x ∈ a.AsSlice, x < 256 := by
  unfold Addr.AsSlice
  cases a.is4
  · exact ⟨Or.inr (beBytes_length _ _), beBytes_lt _ _⟩
  · exact ⟨Or.inl (beBytes_length _ _), beBytes_lt _ _⟩

theorem mem_wanted (rec : Record) (nets : List Prefix) (k : IPNet × Record)
    (h : k ∈ wanted rec nets) :
    ∃ network ∈ nets, isReservedNetwork network.Addr.AsSlice = false
      ∧ k = (ParseCIDR network, rec) := by
  simp only [wanted, List.mem_map, List.mem_filter] at h
  obtain ⟨network, ⟨hm, hr⟩, rfl⟩ := h
  exact ⟨network, hm, by simpa [retained] using hr, rfl⟩

theorem mem_wantedAll (fs : Files) (files : List String) (k : IPNet × Record)
    (h : k ∈ wantedAll fs files) :
    ∃ file ∈ files, ∃ nets network, fs file = .ok nets ∧ network ∈ nets
      ∧ isReservedNetwork network.Addr.AsSlice = false
      ∧ k = (ParseCIDR network, fromData file) := by
  induction files with
  | nil => simp [wantedAll] at h
  | cons file rest ih =>
    simp only [wantedAll, List.mem_append] at h
    rcases h with h | h
    · cases hfs : fs file with
      | error cause => rw [hfs] at h; simp at h
      | ok nets =>
        rw [hfs] at h
        obtain ⟨network, hm, hr, hk⟩ := mem_wanted _ _ _ h
        exact ⟨file, List.mem_cons_self _ _, nets, network, hfs, hm, hr, hk⟩
    · obtain ⟨f, hf, rest1⟩ := ih h
      exact ⟨f, List.mem_cons_of_mem _ hf, rest1⟩

theorem processFile_ok {σ : Type} (fs : Files) (w : Tree σ) (t : σ) (path : String)
    (nets : List Prefix) (hfs : fs path = .ok nets) :
    processFile fs w t path = processLoop w (fromData path) t {} nets := by
  simp [processFile, hfs]

theorem processFile_error {σ : Type} (fs : Files) (w : Tree σ) (t : σ) (path : String)
    (cause : String) (hfs : fs path = .error cause) :
    processFile fs w t path = (t, {}, some (.opening cause)) := by
  simp [processFile, hfs]

theorem verifyLoop_eq : ∀ (out : List Prefix) (acc : Nat × Nat),
    verifyLoop acc out
      = (acc.1 + out.length, (acc.2 + sumIPs (out.map ParseCIDR)) % 2 ^ 64) ∨ out = [] := by
  intro out
  induction out with
  | nil => intro acc; right; rfl
  | cons network rest ih =>
    intro acc
    left
    rcases ih (acc.1 + 1, (acc.2 + countIPs (ParseCIDR network)) % 2 ^ 64) with h | h
    · rw [verifyLoop, h]
      simp only [sumIPs, List.map_cons, List.sum_cons, List.length_cons]
      refine Prod.ext (by simp; omega) ?_
      simp only []
      omega
    · subst h
      simp only [verifyLoop, sumIPs, List.map_cons, List.map_nil, List.sum_cons, List.sum_nil,
        List.length_cons, List.length_nil]
      refine Prod.ext rfl ?_
      simp

/-- C4 as stated fails: from a source holding 128.0.0.0/1, `processFile`
passes that network to `Insert` (its base address 128.0.0.0 is not
reserved), and the network covers 192.168.0.1, which lies inside the
reserved block 192.168.0.0/16. -/
theorem C4_counterexample :
    (processFile sourcesUpper (traced acceptAll) ([], []) "/db/upper.mmdb").1.2
        = [⟨ParseCIDR upperHalf, [("from", "upper")], none⟩]
      ∧ (ParseCIDR upperHalf).Contains [192, 168, 0, 1] = true
      ∧ isReservedNetwork [192, 168, 0, 1] = true
      ∧ (∃ b ∈ reservedBlocks,
          b.covers (familyBits [192, 168, 0, 1]) (addrValue [192, 168, 0, 1]) = true) := by
  decide

/-- C4 amended: every network that `processFile` passes to the target's
`Insert` is built from a network of the source whose base address lies
outside all reserved blocks at the moment of insertion. -/
theorem C4_inserted_base_outside_reserved {σ : Type} (fs : Files) (w : Tree σ) (t : σ)
    (path : String) (att : Attempt)
    (h : att ∈ (processFile fs (traced w) (t, []) path).1.2) :
    ∃ nets network, fs path = .ok nets ∧ network ∈ nets
      ∧ att.net = ParseCIDR network
      ∧ isReservedNetwork network.Addr.AsSlice = false
      ∧ ¬ ∃ b ∈ reservedBlocks,
          b.covers (familyBits network.Addr.AsSlice) (addrValue network.Addr.AsSlice) = true := by
  cases hfs : fs path with
  | error cause =>
    rw [processFile_error fs _ _ path cause hfs] at h
    simp at h
  | ok nets =>
    rw [processFile_ok fs _ _ path nets hfs] at h
    obtain ⟨new, h1, ⟨todo, h2⟩, _⟩ := processLoop_trace w (fromData path) nets t [] {}
    rw [h1, List.nil_append] at h
    have hk : att.key ∈ wanted (fromData path) nets := by
      rw [h2]; exact List.mem_append_left _ (List.mem_map_of_mem _ h)
    obtain ⟨network, hm, hr, hkey⟩ := mem_wanted _ _ _ hk
    refine ⟨nets, network, rfl, hm, congrArg Prod.fst hkey, hr, ?_⟩
    intro hex
    have hv := AsSlice_valid network.Addr
    rw [(isReservedNetwork_iff _ hv.1 hv.2).mpr hex] at hr
    exact Bool.noConfusion hr

/-- C4 amended, at the source holding 10.0.0.0/8 and 1.1.1.0/24: the one
call of `Insert` is for 1.1.1.0/24. -/
theorem C4_witness :
    ∃ nets network, sourcesB "/db/B.mmdb" = .ok nets ∧ network ∈ nets
      ∧ (⟨ParseCIDR net1, [("from", "B")], none⟩ : Attempt).net = ParseCIDR network
      ∧ isReservedNetwork network.Addr.AsSlice = false
      ∧ ¬ ∃ b ∈ reservedBlocks,
          b.covers (familyBits network.Addr.AsSlice) (addrValue network.Addr.AsSlice) = true :=
  C4_inserted_base_outside_reserved sourcesB acceptAll [] "/db/B.mmdb"
    ⟨ParseCIDR net1, [("from", "B")], none⟩ (by decide)

/-- C5: when `processFile` returns without error, whatever the target's
`Insert` does, `networks + skipped` equals the number of networks the
source reported on iteration. -/
theorem C5_retained_plus_skipped_eq_iterated {σ : Type} (fs : Files) (w : Tree σ) (t : σ)
    (path : String) (h : (processFile fs w t path).2.2 = none) :
    ∃ nets, fs path = .ok nets
      ∧ (processFile fs w t path).2.1.networks + (processFile fs w t path).2.1.skipped
          = nets.length := by
  cases hfs : fs path with
  | error cause =>
    rw [processFile_error fs w t path cause hfs] at h
    simp at h
  | ok nets =>
    rw [processFile_ok fs w t path nets hfs] at h ⊢
    refine ⟨nets, rfl, ?_⟩
    rw [processLoop_count w (fromData path) nets t {} h]
    simp

/-- C5 at the source holding 10.0.0.0/8 and 1.1.1.0/24. -/
theorem C5_witness :
    ∃ nets, sourcesB "/db/B.mmdb" = .ok nets
      ∧ (processFile sourcesB acceptAll [] "/db/B.mmdb").2.1.networks
          + (processFile sourcesB acceptAll [] "/db/B.mmdb").2.1.skipped = nets.length :=
  C5_retained_plus_skipped_eq_iterated sourcesB acceptAll [] "/db/B.mmdb" (by decide)

/-- C6 as stated fails: in the merge of two sources, P holding 2002::/16
and Q holding 2a00::/16, neither base address is reserved, yet the target
refuses 2002::/16 as aliased, an error that is not a reserved-network
rejection; the merge stops there with that error, and 2a00::/16 from Q is
never passed to `Insert`. -/
theorem C6_counterexample :
    isReservedNetwork sixToFour.Addr.AsSlice = false
      ∧ isReservedNetwork net2a00.Addr.AsSlice = false
      ∧ (mergeLoop sourcesSix (traced aliasing) ([], []) {} ["/db/P.mmdb", "/db/Q.mmdb"]).2
          = .error ("/db/P.mmdb", .inserting sixToFour
              "attempt to insert 2002::/16, which is in an aliased network")
      ∧ (mergeLoop sourcesSix (traced aliasing) ([], []) {}
            ["/db/P.mmdb", "/db/Q.mmdb"]).1.2.map Attempt.key
          = [(ParseCIDR sixToFour, [("from", "P")])]
      ∧ wantedAll sourcesSix ["/db/P.mmdb", "/db/Q.mmdb"]
          = [(ParseCIDR sixToFour, [("from", "P")]), (ParseCIDR net2a00, [("from", "Q")])]
      ∧ (mergeLoop sourcesSix (traced aliasing) ([], []) {}
            ["/db/P.mmdb", "/db/Q.mmdb"]).1.2.map Attempt.key
          ≠ wantedAll sourcesSix ["/db/P.mmdb", "/db/Q.mmdb"] := by
  refine ⟨by decide, by decide, rfl, by decide, by decide, by decide⟩

/-- C6 amended: for every ordered list of sources, the calls of `Insert` are
an initial segment of, and for a run without error exactly, the networks whose
base address is not reserved, source by source in the given order and in
iteration order within a source, each with the record `{"from": label}`,
the label being the file's base name without a trailing ".mmdb"; no network
with a reserved base address is ever passed to `Insert`.  With source X
holding 203.0.113.0/24 and source Y holding 8.8.8.0/24: one skipped, one
retained, and the one call is for 8.8.8.0/24 with Y's label. -/
theorem C6_insertions_in_source_order {σ : Type} (fs : Files) (w : Tree σ) (t : σ)
    (files : List String) :
    (∃ todo, wantedAll fs files
        = (mergeLoop fs (traced w) (t, []) {} files).1.2.map Attempt.key ++ todo)
      ∧ (isError (mergeLoop fs (traced w) (t, []) {} files).2 = false →
          (mergeLoop fs (traced w) (t, []) {} files).1.2.map Attempt.key
            = wantedAll fs files)
      ∧ (∀ att ∈ (mergeLoop fs (traced w) (t, []) {} files).1.2,
          ∃ file ∈ files, ∃ nets network, fs file = .ok nets ∧ network ∈ nets
            ∧ isReservedNetwork network.Addr.AsSlice = false
            ∧ att.net = ParseCIDR network
            ∧ att.record = [("from", TrimSuffix (Base file) ".mmdb")])
      ∧ (∀ X Y, fs X = .ok [testNet3] → fs Y = .ok [net8] →
          (w.Insert t (ParseCIDR net8) (fromData Y)).2 = none →
          (mergeLoop fs (traced w) (t, []) {} [X, Y]).2 = .ok ⟨1, 1, 256⟩
            ∧ (mergeLoop fs (traced w) (t, []) {} [X, Y]).1.2
                = [⟨ParseCIDR net8, [("from", TrimSuffix (Base Y) ".mmdb")], none⟩]) := by
  obtain ⟨new, h1, ⟨todo, h2⟩, h3, _⟩ := mergeLoop_trace fs w files t [] {}
  rw [h1, List.nil_append]
  refine ⟨⟨todo, h2⟩, ?_, ?_, ?_⟩
  · intro hok
    cases hr : (mergeLoop fs (traced w) (t, []) {} files).2 with
    | error e => rw [hr] at hok; simp [isError] at hok
    | ok tot => exact (h3 tot hr).1
  · intro att hatt
    have hk : att.key ∈ wantedAll fs files := by
      rw [h2]; exact List.mem_append_left _ (List.mem_map_of_mem _ hatt)
    obtain ⟨file, hf, nets, network, hfs, hm, hr, hkey⟩ := mem_wantedAll _ _ _ hk
    exact ⟨file, hf, nets, network, hfs, hm, hr, congrArg Prod.fst hkey,
      congrArg Prod.snd hkey⟩
  · intro X Y hX hY hins
    have hresX : isReservedNetwork testNet3.Addr.AsSlice = true := by decide
    have hresY : isReservedNetwork net8.Addr.AsSlice = false := by decide
    have hcount : countIPs (ParseCIDR net8) = 256 := by decide
    rcases hw : w.Insert t (ParseCIDR net8) (fromData Y) with ⟨t1, e⟩
    rw [hw] at hins
    simp only at hins
    subst hins
    have hrunX : processLoop (traced w) (fromData X) (t, []) {} [testNet3]
        = ((t, []), { skipped := 1 }, none) := by
      rw [processLoop_reserved _ _ _ _ _ _ hresX]; rfl
    have hinsY : (traced w).Insert (t, []) (ParseCIDR net8) (fromData Y)
        = ((t1, [] ++ [⟨ParseCIDR net8, fromData Y, none⟩]), none) := by
      rw [traced_Insert, hw]
    have hrunY : processLoop (traced w) (fromData Y) (t, []) {} [net8]
        = ((t1, [⟨ParseCIDR net8, fromData Y, none⟩]), { networks := 1, ips := 256 }, none) := by
      rw [processLoop_inserted _ _ _ _ _ _ _ hresY hinsY, hcount]; rfl
    rw [mergeLoop_next fs _ _ _ _ X [Y] _ _ hX hrunX,
      mergeLoop_next fs _ _ _ _ Y [] _ _ hY hrunY]
    exact ⟨rfl, rfl⟩

/-- C6 amended, at the two sources X and Y on a target that accepts
everything. -/
theorem C6_witness :
    (mergeLoop sourcesA (traced acceptAll) ([], []) {} ["/db/X.mmdb", "/db/Y.mmdb"]).2
        = .ok ⟨1, 1, 256⟩
      ∧ (mergeLoop sourcesA (traced acceptAll) ([], []) {} ["/db/X.mmdb", "/db/Y.mmdb"]).1.2
          = [⟨ParseCIDR net8, [("from", TrimSuffix (Base "/db/Y.mmdb") ".mmdb")], none⟩] :=
  (C6_insertions_in_source_order sourcesA acceptAll [] []).2.2.2
    "/db/X.mmdb" "/db/Y.mmdb" rfl rfl rfl

/-- C7: when `processFile` returns without error, `ips` is the sum in
unsigned 64-bit arithmetic of `countIPs` over exactly the networks whose
insertion succeeded, `networks` is the number of those networks, and
`skipped` counts the others, which add nothing to `ips`.  With one source
holding 10.0.0.0/8 and 1.1.1.0/24: networks = 1, skipped = 1, ips = 256. -/
theorem C7_ips_sum_over_inserted {σ : Type} (fs : Files) (w : Tree σ) (t : σ)
    (path : String) (h : (processFile fs (traced w) (t, []) path).2.2 = none) :
    (processFile fs (traced w) (t, []) path).2.1.ips
        = sumIPs (inserted (processFile fs (traced w) (t, []) path).1.2) % 2 ^ 64
      ∧ (processFile fs (traced w) (t, []) path).2.1.networks
          = (inserted (processFile fs (traced w) (t, []) path).1.2).length
      ∧ (∃ nets, fs path = .ok nets
          ∧ (processFile fs (traced w) (t, []) path).2.1.skipped
            = (nets.filter (fun n => !retained n)).length
              + ((processFile fs (traced w) (t, []) path).1.2.filter
                  Attempt.rejectedReserved).length)
      ∧ (fs path = .ok [private10, net1] →
          (w.Insert t (ParseCIDR net1) (fromData path)).2 = none →
          (processFile fs (traced w) (t, []) path).2.1 = ⟨1, 1, 256⟩) := by
  cases hfs : fs path with
  | error cause =>
    rw [processFile_error fs _ _ path cause hfs] at h
    simp at h
  | ok nets =>
    rw [processFile_ok fs _ _ path nets hfs] at h ⊢
    obtain ⟨new, h1, _, _, h4, h5, h6, _⟩ := processLoop_trace w (fromData path) nets t [] {}
    have hlt := processLoop_ips_lt (traced w) (fromData path) nets (t, []) {}
      (by show (0 : Nat) < 2 ^ 64; norm_num)
    rw [h1, List.nil_append]
    have hips : (processLoop (traced w) (fromData path) (t, []) {} nets).2.1.ips
        = sumIPs (inserted new) % 2 ^ 64 := by
      rw [← Nat.mod_eq_of_lt hlt, h5]
      show (0 + sumIPs (inserted new)) % 2 ^ 64 = _
      rw [Nat.zero_add]
    have hnet : (processLoop (traced w) (fromData path) (t, []) {} nets).2.1.networks
        = (inserted new).length := by
      rw [h4]; show 0 + _ = _; rw [Nat.zero_add]
    have hskip : (processLoop (traced w) (fromData path) (t, []) {} nets).2.1.skipped
        = (nets.filter (fun n => !retained n)).length
          + (new.filter Attempt.rejectedReserved).length := by
      rw [h6 h]; show 0 + _ + _ = _; rw [Nat.zero_add]
    refine ⟨hips, hnet, ⟨nets, rfl, hskip⟩, ?_⟩
    intro hB hins0
    have hnets : nets = [private10, net1] := by
      simpa using hB
    subst hnets
    have hres1 : isReservedNetwork private10.Addr.AsSlice = true := by decide
    have hres2 : isReservedNetwork net1.Addr.AsSlice = false := by decide
    have hcount : countIPs (ParseCIDR net1) = 256 := by decide
    rcases hw : w.Insert t (ParseCIDR net1) (fromData path) with ⟨t1, e⟩
    rw [hw] at hins0
    simp only at hins0
    subst hins0
    have hins : (traced w).Insert (t, []) (ParseCIDR net1) (fromData path)
        = ((t1, [] ++ [⟨ParseCIDR net1, fromData path, none⟩]), none) := by
      rw [traced_Insert, hw]
    rw [processLoop_reserved _ _ _ _ _ _ hres1,
      processLoop_inserted _ _ _ _ _ _ _ hres2 hins, hcount]
    rfl

/-- C7 at the source holding 10.0.0.0/8 and 1.1.1.0/24, on a target that
accepts everything. -/
theorem C7_witness :
    (processFile sourcesB (traced acceptAll) ([], []) "/db/B.mmdb").2.1 = ⟨1, 1, 256⟩ :=
  (C7_ips_sum_over_inserted sourcesB acceptAll [] "/db/B.mmdb" (by decide)).2.2.2 rfl rfl

/-- C8: when the target's `Insert` rejects a network with an error whose
message contains "reserved network", `processFile` goes on with the next
network of the source with `skipped` one higher and `networks` and `ips`
unchanged, and returns no error for it: the same step as for a network its
own filter rejects.  Over a whole run without error, `skipped` is the
number of networks rejected by the filter plus the number rejected by the
target. -/
theorem C8_target_rejection_is_a_skip {σ : Type} (w : Tree σ) (rec : Record) (t t1 : σ)
    (stats : fileStats) (network : Prefix) (rest : List Prefix) (err : String)
    (hres : isReservedNetwork network.Addr.AsSlice = false)
    (hins : w.Insert t (ParseCIDR network) rec = (t1, some err))
    (hc : Contains err "reserved network" = true) :
    processLoop w rec t stats (network :: rest)
        = processLoop w rec t1
            { networks := stats.networks, skipped := stats.skipped + 1, ips := stats.ips } rest
      ∧ (∀ (own : Prefix), isReservedNetwork own.Addr.AsSlice = true →
          processLoop w rec t1 stats (own :: rest)
            = processLoop w rec t1
                { networks := stats.networks, skipped := stats.skipped + 1, ips := stats.ips }
                rest)
      ∧ (∀ (nets : List Prefix) (log : List Attempt),
          (processLoop (traced w) rec (t, log) {} nets).2.2 = none →
          ∃ new, (processLoop (traced w) rec (t, log) {} nets).1.2 = log ++ new
            ∧ (processLoop (traced w) rec (t, log) {} nets).2.1.skipped
                = (nets.filter (fun n => !retained n)).length
                  + (new.filter Attempt.rejectedReserved).length) := by
  refine ⟨processLoop_rejected w rec t t1 stats network rest err hres hins hc, ?_, ?_⟩
  · intro own hown
    exact processLoop_reserved w rec t1 stats own rest hown
  · intro nets log hok
    obtain ⟨new, h1, _, _, _, _, h6, _⟩ := processLoop_trace w rec nets t log {}
    refine ⟨new, h1, ?_⟩
    rw [h6 hok]; show 0 + _ + _ = _; rw [Nat.zero_add]

/-- C8 on a target that rejects every network as reserved: 8.8.8.0/24 is
skipped and the loop goes on with 1.1.1.0/24. -/
theorem C8_witness :
    processLoop (failing "attempt to insert into a reserved network") [("from", "Y")] 0
        {} (net8 :: [net1])
      = processLoop (failing "attempt to insert into a reserved network") [("from", "Y")] 1
          { networks := 0, skipped := 1, ips := 0 } [net1] :=
  (C8_target_rejection_is_a_skip (failing "attempt to insert into a reserved network")
    [("from", "Y")] 0 1 {} net8 [net1] "attempt to insert into a reserved network"
    (by decide) rfl (by decide)).1

theorem fatal_is_last {α : Type} (P : α → Bool) (l pre post : List α) (a : α)
    (hall : ∀ x ∈ l.dropLast, P x = false) (hl : l = pre ++ a :: post) (ha : P a = true) :
    post = [] := by
  by_contra hpost
  have hmem : a ∈ l.dropLast := by
    rw [hl, List.dropLast_append_of_ne_nil _ (List.cons_ne_nil a post)]
    apply List.mem_append_right
    obtain ⟨b, post1, rfl⟩ := List.exists_cons_of_ne_nil hpost
    simp [List.dropLast]
  rw [hall a hmem] at ha
  exact Bool.noConfusion ha

/-- C9: when `Insert` fails for a network with an error that is not a
reserved-network rejection, `processFile` returns at once, with an error
that carries the network; the failed call is the last call of `Insert` of
the whole run, so no further network of that source and no network of a
later source is inserted; and, every source opening, the merge ends in an
error if and only if some call of `Insert` failed with such an error. -/
theorem C9_fatal_insert_aborts {σ : Type} (fs : Files) (w : Tree σ) (t : σ)
    (files : List String) (hopen : allOpen fs files) :
    (isError (mergeLoop fs (traced w) (t, []) {} files).2 = true
        ↔ ∃ a ∈ (mergeLoop fs (traced w) (t, []) {} files).1.2, a.fatal = true)
      ∧ (∀ pre a post, (mergeLoop fs (traced w) (t, []) {} files).1.2 = pre ++ a :: post →
          a.fatal = true → post = [])
      ∧ (∀ file e, (mergeLoop fs (traced w) (t, []) {} files).2 = .error (file, e) →
          file ∈ files ∧ ∃ nets network cause, fs file = .ok nets ∧ network ∈ nets
            ∧ e = .inserting network cause
            ∧ Contains cause "reserved network" = false
            ∧ (mergeLoop fs (traced w) (t, []) {} files).1.2.getLast?
                = some ⟨ParseCIDR network, fromData file, some cause⟩)
      ∧ (∀ (rec : Record) (t0 t1 : σ) (stats : fileStats) (network : Prefix)
          (rest : List Prefix) (err : String),
          isReservedNetwork network.Addr.AsSlice = false →
          w.Insert t0 (ParseCIDR network) rec = (t1, some err) →
          Contains err "reserved network" = false →
          processLoop w rec t0 stats (network :: rest)
            = (t1, stats, some (.inserting network err))) := by
  obtain ⟨new, h1, _, _, h4, h5, h6⟩ := mergeLoop_trace fs w files t [] {}
  rw [h1, List.nil_append]
  refine ⟨h4 hopen, ?_, ?_, ?_⟩
  · intro pre a post hl ha
    exact fatal_is_last Attempt.fatal new pre post a h5 hl ha
  · intro file e he
    obtain ⟨hm, hcase⟩ := h6 file e he
    refine ⟨hm, ?_⟩
    rcases hcase with ⟨cause, _, hfs⟩ | ⟨nets, network, cause, c1, c2, c3, _, c5, c6⟩
    · obtain ⟨nets, hn⟩ := hopen file hm
      rw [hfs] at hn; simp at hn
    · exact ⟨nets, network, cause, c1, c2, c3, c5, c6⟩
  · intro rec t0 t1 stats network rest err hres hins hc
    exact processLoop_fatal w rec t0 t1 stats network rest err hres hins hc

/-- C9 at the two sources X and Y on a target whose every insertion fails
with "out of memory": the merge ends in an error exactly because the one
call made failed. -/
theorem C9_witness :
    isError (mergeLoop sourcesA (traced (failing "out of memory")) (0, []) {}
        ["/db/X.mmdb", "/db/Y.mmdb"]).2 = true
      ↔ ∃ a ∈ (mergeLoop sourcesA (traced (failing "out of memory")) (0, []) {}
          ["/db/X.mmdb", "/db/Y.mmdb"]).1.2, a.fatal = true :=
  (C9_fatal_insert_aborts sourcesA (failing "out of memory") 0 ["/db/X.mmdb", "/db/Y.mmdb"]
    (by
      intro file hf
      simp only [List.mem_cons, List.mem_singleton, List.mem_nil_iff, or_false] at hf
      rcases hf with rfl | rfl
      · exact ⟨[testNet3], rfl⟩
      · exact ⟨[net8], rfl⟩)).1

/-- C10: after a merge without error, if the reopened output reports exactly
the networks that were successfully inserted (as it does when the inputs
hold no overlapping or duplicate prefixes), the verification loop recounts
the running totals: `outputNetworks = totalNetworks`, the sum over sources
of networks retained, and `outputIPs = totalIPs`, the sum over sources of
addresses covered. -/
theorem C10_recount_matches_totals {σ : Type} (fs : Files) (w : Tree σ) (t : σ)
    (files : List String) (tot : Totals) (out : List Prefix)
    (hrun : (mergeLoop fs (traced w) (t, []) {} files).2 = .ok tot)
    (hout : (out.map ParseCIDR).Perm
      (inserted (mergeLoop fs (traced w) (t, []) {} files).1.2)) :
    verifyLoop (0, 0) out = (tot.totalNetworks, tot.totalIPs) := by
  obtain ⟨new, h1, _, h3, _⟩ := mergeLoop_trace fs w files t [] {}
  rw [h1, List.nil_append] at hout
  obtain ⟨_, k2, k3⟩ := h3 tot hrun
  have hlt := mergeLoop_ips_lt fs (traced w) files (t, []) {} tot
    (by show (0 : Nat) < 2 ^ 64; norm_num) hrun
  have hlen : out.length = (inserted new).length := by
    rw [← hout.length_eq, List.length_map]
  have hsum : sumIPs (out.map ParseCIDR) = sumIPs (inserted new) := by
    unfold sumIPs
    exact (hout.map countIPs).sum_eq
  have hN : tot.totalNetworks = (inserted new).length := by
    rw [k2]; show 0 + _ = _; rw [Nat.zero_add]
  have hI : tot.totalIPs = sumIPs (inserted new) % 2 ^ 64 := by
    rw [← Nat.mod_eq_of_lt hlt, k3]; show (0 + _) % _ = _; rw [Nat.zero_add]
  rcases verifyLoop_eq out (0, 0) with h | h
  · rw [h, hN, hI, hsum, hlen]; simp
  · subst h
    have hnil : inserted new = [] := by
      have := hlen; simp at this
      exact List.length_eq_zero.mp this.symm
    rw [hN, hI, hnil]; rfl

/-- C10 at the two sources X and Y on a target that accepts everything, the
reopened output reporting 8.8.8.0/24. -/
theorem C10_witness : verifyLoop (0, 0) [net8] = (1, 256) :=
  C10_recount_matches_totals sourcesA acceptAll [] ["/db/X.mmdb", "/db/Y.mmdb"] ⟨1, 1, 256⟩
    [net8] rfl (by decide)

end Mmdbmerge
